import Mathlib

/-! Manifest templating and overlay composition (`cmd/build.go`).

A shallow embedding of the template pipeline of the `cli` repository:
the overlay composer `BuilderToTemplate`, the placeholder substitution loop of
`GenerateKustomizeResult`, the two YAML fragment generators and the projection
of the flat map into environment files.

Go strings are embedded as Lean `String`s; the functions of the Go standard
library that the code calls (`strings.Contains`, `strings.Replace`,
`strings.Split`, `strings.Join`, `strconv.FormatBool`, `strconv.FormatInt`,
`base64.StdEncoding.EncodeToString`) are embedded as structurally recursive
functions on the characters of the string.
-/

namespace Cli

/-! ## The Go `strings` package -/

/-- Character-level worker of `strings.Contains`: `sub` starts at some position of the text. -/
def containsChars (sub : List Char) : List Char → Bool
  | [] => sub.isPrefixOf []
  | c :: cs => sub.isPrefixOf (c :: cs) || containsChars sub cs

/-- Go `strings.Contains(s, substr)`. -/
def Contains (s substr : String) : Bool :=
  containsChars substr.data s.data

/-- Character-level worker of `strings.Replace` for a non-empty `old`: scan from the left,
replace the leftmost match while the budget `n` lasts and continue after the match
(`skip` counts the characters of a match still to be dropped). -/
def replaceChars (old new : List Char) : List Char → Nat → Option Nat → List Char
  | [], _, _ => []
  | _ :: cs, skip + 1, n => replaceChars old new cs skip n
  | c :: cs, 0, none =>
    if old.isPrefixOf (c :: cs) then new ++ replaceChars old new cs (old.length - 1) none
    else c :: replaceChars old new cs 0 none
  | c :: cs, 0, some 0 => c :: cs
  | c :: cs, 0, some (n + 1) =>
    if old.isPrefixOf (c :: cs) then new ++ replaceChars old new cs (old.length - 1) (some n)
    else c :: replaceChars old new cs 0 (some (n + 1))

/-- Character-level worker of `strings.Replace` for an empty `old`: `new` is inserted before
every character and at the end of the text, while the budget lasts. -/
def insertChars (new : List Char) : List Char → Option Nat → List Char
  | cs, some 0 => cs
  | [], _ => new
  | c :: cs, none => new ++ c :: insertChars new cs none
  | c :: cs, some (n + 1) => new ++ c :: insertChars new cs (some n)

/-- Go `strings.Replace(s, old, new, n)`: the first `n` non-overlapping occurrences of `old`
are replaced by `new`, all of them when `n < 0`. -/
def Replace (s old new : String) (n : Int) : String :=
  let budget : Option Nat := if n < 0 then none else some n.toNat
  if old.data = [] then String.mk (insertChars new.data s.data budget)
  else String.mk (replaceChars old.data new.data s.data 0 budget)

/-- Character-level worker of `strings.Split` for a non-empty separator: `cur` holds the
characters of the current piece in reverse. -/
def splitChars (sep : List Char) : List Char → Nat → List Char → List (List Char)
  | [], _, cur => [cur.reverse]
  | _ :: cs, skip + 1, cur => splitChars sep cs skip cur
  | c :: cs, 0, cur =>
    if sep.isPrefixOf (c :: cs) then cur.reverse :: splitChars sep cs (sep.length - 1) []
    else splitChars sep cs 0 (c :: cur)

/-- Go `strings.Split(s, sep)`: the pieces of `s` between the occurrences of `sep`; an empty
separator splits after every character. -/
def Split (s sep : String) : List String :=
  if sep.data = [] then s.data.map (fun c => String.mk [c])
  else (splitChars sep.data s.data 0 []).map String.mk

/-- Go `strings.Join(elems, sep)`. -/
def Join : List String → String → String
  | [], _ => ""
  | [a], _ => a
  | a :: b :: rest, sep => a ++ sep ++ Join (b :: rest) sep

/-! ## `strconv` and `encoding/base64` -/

/-- Go `strconv.FormatBool`. -/
def FormatBool (b : Bool) : String :=
  if b then "true" else "false"

/-- Go `strconv.FormatInt(i, 10)`: an optional minus sign and the decimal digits. -/
def FormatInt (i : Int) : String :=
  if i < 0 then "-" ++ Nat.repr i.natAbs else Nat.repr i.toNat

/-- The bytes of a Go string holding the character `c` (UTF-8). -/
def utf8Bytes (c : Char) : List Nat :=
  let v := c.toNat
  if v < 0x80 then [v]
  else if v < 0x800 then [0xC0 + v / 64, 0x80 + v % 64]
  else if v < 0x10000 then [0xE0 + v / 4096, 0x80 + v / 64 % 64, 0x80 + v % 64]
  else [0xF0 + v / 262144, 0x80 + v / 4096 % 64, 0x80 + v / 64 % 64, 0x80 + v % 64]

/-- Go `[]byte(s)`. -/
def stringBytes (s : String) : List Nat :=
  s.data.flatMap utf8Bytes

/-- The alphabet of the standard base64 encoding (RFC 4648). -/
def encodeStd : List Char :=
  "ABCDEFGHIJKLMNOPQRSTUVWXYZabcdefghijklmnopqrstuvwxyz0123456789+/".data

/-- The base64 character of a six-bit value. -/
def base64Char (v : Nat) : Char :=
  encodeStd.getD (v % 64) 'A'

/-- Standard padded base64 of a byte sequence: three bytes give four characters, a rest of
one or two bytes is padded with `=`. -/
def encodeBytes : List Nat → List Char
  | [] => []
  | [a] => [base64Char (a / 4), base64Char (a % 4 * 16), '=', '=']
  | [a, b] => [base64Char (a / 4), base64Char (a % 4 * 16 + b / 16), base64Char (b % 16 * 4), '=']
  | a :: b :: c :: rest =>
    base64Char (a / 4) :: base64Char (a % 4 * 16 + b / 16) ::
      base64Char (b % 16 * 4 + c / 64) :: base64Char (c % 64) :: encodeBytes rest

/-- Go `base64.StdEncoding.EncodeToString([]byte(s))`. -/
def EncodeToString (s : String) : String :=
  String.mk (encodeBytes (stringBytes s))

/-! ## The flat map -/

/-- Modelled from the spec: the values of the flat map, which `FlattenToKeyValue` of the
package `util` builds (not part of the sources at hand), are typed scalars, `string`, `bool`
or `int`. These are the types the substitution loop accepts (lines 357-373); on a value of
any other dynamic type the loop ends the process (line 369). -/
inductive FlatValue where
  | str (s : String)
  | bool (b : Bool)
  | int (i : Int)
  deriving DecidableEq, Repr

/-- The flat map `map[string]interface{}` as the list of its entries; the order of the list
is the order in which `range` visits the keys. -/
abbrev FlatMap := List (String × FlatValue)

/-- Go `flatMap[key]`, `none` for an absent key. -/
def FlatMap.get (flatMap : FlatMap) (key : String) : Option FlatValue :=
  match flatMap with
  | [] => none
  | (k, v) :: rest => if k = key then some v else FlatMap.get rest key

/-- Go `flatMap[key] = value`: an existing entry is overwritten in place, a new key is added. -/
def FlatMap.set (flatMap : FlatMap) (key : String) (value : FlatValue) : FlatMap :=
  match flatMap with
  | [] => [(key, value)]
  | (k, v) :: rest => if k = key then (k, value) :: rest else (k, v) :: FlatMap.set rest key value

/-! ## The substitution loop of `GenerateKustomizeResult` (build.go, lines 348-394) -/

/-- The formatted text `useStr` of a value (lines 357-374): booleans as `true`/`false`,
integers as a quoted number, strings as they are. -/
def useStr : FlatValue → String
  | .bool valueBool => FormatBool valueBool
  | .int valueInt => "\"" ++ FormatInt valueInt ++ "\""
  | .str valueStr => valueStr

/-- The raw text `rawStr` of a value (lines 357-374). -/
def rawStr : FlatValue → String
  | .bool valueBool => FormatBool valueBool
  | .int valueInt => FormatInt valueInt
  | .str valueStr => valueStr

/-- One iteration of the loop over the keys (lines 357-388): the three placeholder forms of
`key` are replaced one after the other, each guarded by `strings.Contains(content, key)`. -/
def substituteKey (key : String) (value : FlatValue) (manifestFileContentStr : String) : String :=
  let oldString := "$(" ++ key ++ ")"
  let c1 := if Contains manifestFileContentStr key
    then Replace manifestFileContentStr oldString (useStr value) (-1) else manifestFileContentStr
  let oldRawString := "$raw(" ++ key ++ ")"
  let c2 := if Contains c1 key then Replace c1 oldRawString (rawStr value) (-1) else c1
  let oldBase64String := "$base64(" ++ key ++ ")"
  if Contains c2 key then
    let base64Value := EncodeToString (rawStr value)
    Replace c2 oldBase64String base64Value (-1)
  else c2

/-- The loop `for key := range flatMap` over one file content (lines 356-389); the entries
are visited in the order of the list. -/
def substituteContent (flatMap : FlatMap) (manifestFileContentStr : String) : String :=
  flatMap.foldl (fun content entry => substituteKey entry.1 entry.2 content) manifestFileContentStr

/-! ## The merge of `workflow-config-map-hidden.env` (build.go, lines 225-233) -/

/-- The body of the loop over the lines (lines 228-232): a line that `=` splits into exactly
two pieces sets the first piece to the second one, as a string. -/
def mergeEnvLine (flatMap : FlatMap) (line : String) : FlatMap :=
  match Split line "=" with
  | [key, value] => flatMap.set key (.str value)
  | _ => flatMap

/-- The loop over `strings.Split(workflowEnvContStr, "\n")` (lines 227-233). -/
def mergeEnv (flatMap : FlatMap) (workflowEnvContStr : String) : FlatMap :=
  (Split workflowEnvContStr "\n").foldl mergeEnvLine flatMap

/-! ## The overlay composer `BuilderToTemplate` (build.go, lines 427-447) -/

/-- A component of the manifest: its base resource path (`Component().Path()`). -/
structure Component where
  path : String
  deriving DecidableEq, Repr

/-- An overlay of a component: its path (`overlay.Path()`). -/
structure Overlay where
  path : String
  deriving DecidableEq, Repr

/-- A component with its configured overlays, in order (`manifest.OverlayComponent`). -/
structure OverlayComponent where
  component : Component
  overlays : List Overlay
  deriving DecidableEq, Repr

/-- Modelled from the spec: `HasOverlays` of the package `manifest`, which is not part of
the sources at hand; a component has overlays when its list of overlay paths is non-empty. -/
def OverlayComponent.HasOverlays (c : OverlayComponent) : Bool :=
  !c.overlays.isEmpty

/-- The builder as far as the composer reads it (`GetOverlayComponents`). -/
structure Builder where
  overlayComponents : List OverlayComponent
  deriving DecidableEq, Repr

/-- The kustomization template (`template.Kustomize`). -/
structure Kustomize where
  ApiVersion : String
  Kind : String
  Resources : List String
  Configurations : List String
  deriving DecidableEq, Repr

/-- The inner loop over the overlays of one component (lines 441-443). -/
def appendOverlays (resources : List String) : List Overlay → List String
  | [] => resources
  | overlay :: rest => appendOverlays (resources ++ [overlay.path]) rest

/-- The loop over the overlay components (lines 435-444). -/
def appendComponents (resources : List String) : List OverlayComponent → List String
  | [] => resources
  | overlayComponent :: rest =>
    if !overlayComponent.HasOverlays then
      appendComponents (resources ++ [overlayComponent.component.path]) rest
    else
      appendComponents (appendOverlays resources overlayComponent.overlays) rest

/-- The overlay composer (lines 427-447). -/
def BuilderToTemplate (builder : Builder) : Kustomize :=
  { ApiVersion := "kustomize.config.k8s.io/v1beta1"
    Kind := "Kustomization"
    Resources := appendComponents [] builder.overlayComponents
    Configurations := ["configs/varreference.yaml"] }

/-! ## The fragment generators (build.go, lines 505-559) -/

/-- A node of the parsed YAML document (`yaml.Node`) as far as the generators read it. -/
inductive Node where
  | mk (tag : String) (value : String) (content : List Node)

/-- The field `Tag` of a node. -/
def Node.Tag : Node → String
  | .mk tag _ _ => tag

/-- The field `Value` of a node. -/
def Node.Value : Node → String
  | .mk _ value _ => value

/-- The field `Content` of a node. -/
def Node.Content : Node → List Node
  | .mk _ _ content => content

/-- The loop of `generateMetalLbAddresses` (lines 547-557): `idx` is the index of the node,
`appendStr` the pending text and `lines` the slice `applicationNodePoolOptions`. -/
def metalLbLoop : List Node → Nat → String → List String → List String
  | [], _, _, lines => lines
  | poolNode :: rest, idx, appendStr, lines =>
    if poolNode.Tag = "!!str" then
      let appendStr1 := if idx > 0 then "      " else appendStr
      let appendStr2 := appendStr1 ++ ("- " ++ poolNode.Value ++ "\n")
      metalLbLoop rest (idx + 1) "" (lines ++ [appendStr2])
    else metalLbLoop rest (idx + 1) appendStr lines

/-- The scalar-list formatter (lines 544-559). -/
def generateMetalLbAddresses (nodePoolData : List Node) : String :=
  Join (metalLbLoop nodePoolData 0 "" [""]) ""

/-- The loop over the content of one option node (lines 516-534): the nodes at even indices
are keys, the node after a key is its value; `none` is the run-time panic of
`optionNode.Content[idx+1]` on a missing value node. The flag `addSingleQuotes` is false
at the head of every iteration, so it is local here. -/
def optionFields (content : List Node) : List Node → Nat → List String → Option (List String)
  | [], _, optionChunk => some optionChunk
  | optionDatum :: rest, idx, optionChunk =>
    if idx % 2 = 1 then optionFields content rest (idx + 1) optionChunk
    else
      match content.get? (idx + 1) with
      | none => none
      | some valueNode =>
        let prefixStr := if Contains optionDatum.Value "name" then "- " else "  "
        let addSingleQuotes : Bool := valueNode.Tag = "!!str"
        let optionChunkAppend :=
          if addSingleQuotes then
            "    " ++ prefixStr ++ optionDatum.Value ++ ": '" ++ valueNode.Value ++ "'\n"
          else "    " ++ prefixStr ++ optionDatum.Value ++ ": " ++ valueNode.Value ++ "\n"
        optionFields content rest (idx + 1) (optionChunk ++ [optionChunkAppend])

/-- The loop over the option nodes of the sequence (lines 515-536). -/
def optionSets : List Node → List String → Option (List String)
  | [], optionChunk => some optionChunk
  | optionNode :: rest, optionChunk =>
    match optionFields optionNode.Content optionNode.Content 0 optionChunk with
    | none => none
    | some optionChunk1 => optionSets rest (optionChunk1 ++ [""])

/-- The loop over the pool nodes (lines 511-539): the first sequence-tagged node is
processed, then the loop is left. -/
def poolLoop : List Node → Option (List String)
  | [] => some []
  | poolNode :: rest =>
    if poolNode.Tag = "!!seq" then optionSets poolNode.Content [] else poolLoop rest

/-- The option-list formatter (lines 505-542); `none` is a run-time panic. -/
def generateApplicationNodePoolOptions (nodePoolData : List Node) : Option String :=
  match poolLoop nodePoolData with
  | none => none
  | some optionChunk => some (Join (["|\n"] ++ [Join optionChunk ""]) "")

/-! ## The projection into environment files (build.go, lines 235-303) -/

/-- The configuration document as far as the projection reads it: the dotted paths that
are present. -/
structure DynamicYaml where
  keys : List String
  deriving DecidableEq, Repr

/-- Modelled from the spec: `HasKey` of `util.DynamicYaml`, which is not part of the sources
at hand; path-based lookup, true when the path is present in the document. -/
def DynamicYaml.HasKey (yamlFile : DynamicYaml) (key : String) : Bool :=
  yamlFile.keys.contains key

/-- Modelled from the spec: `HasKeys` of `util.DynamicYaml`, which is not part of the sources
at hand; true when every one of the paths is present. -/
def DynamicYaml.HasKeys (yamlFile : DynamicYaml) (keys : List String) : Bool :=
  keys.all yamlFile.HasKey

/-- The files of the scratch tree: path and content. -/
abbrev FileTree := List (String × String)

/-- The content of a file, `none` when it does not exist. -/
def FileTree.read (fs : FileTree) (path : String) : Option String :=
  match fs with
  | [] => none
  | (p, c) :: rest => if p = path then some c else FileTree.read rest path

/-- The effect of `files.DeleteIfExists`, `os.Create` and `WriteString` on a path: afterwards
the file exists and holds exactly the text written. -/
def FileTree.write (fs : FileTree) (path content : String) : FileTree :=
  (path, content) :: fs.filter (fun entry => entry.1 ≠ path)

/-- The verb `%v` of `fmt.Sprintf` on the result of a map lookup. -/
def fmtV : Option FlatValue → String
  | none => "<nil>"
  | some (.str s) => s
  | some (.bool b) => FormatBool b
  | some (.int i) => FormatInt i

/-- Go `filepath.Join` on path elements that need no cleaning. -/
def filepathJoin (elems : List String) : String :=
  Join elems "/"

/-- The scratch directory of the build. -/
def localManifestsCopyPath : String := ".onepanel/manifests/cache"

/-- How the projection ends: it runs through, or `log.Fatal` ends the process; both carry
the scratch tree of that moment. -/
inductive Outcome where
  | ok (fs : FileTree)
  | fatal (msg : String) (fs : FileTree)
  deriving DecidableEq, Repr

/-- The file `workflow-config-map.env` (lines 237-261). -/
def writeWorkflowEnv (yamlFile : DynamicYaml) (flatMap : FlatMap) (fs : FileTree) : Outcome :=
  if yamlFile.HasKey "artifactRepository.s3" then
    if yamlFile.HasKeys ["artifactRepository.s3.bucket", "artifactRepository.s3.endpoint",
        "artifactRepository.s3.insecure", "artifactRepository.s3.region"] then
      let paramsPath := filepathJoin [localManifestsCopyPath, "vars", "workflow-config-map.env"]
      let stringToWrite :=
        "artifactRepositoryBucket" ++ "=" ++ fmtV (flatMap.get "artifactRepositoryS3Bucket") ++ "\n" ++
        "artifactRepositoryEndpoint" ++ "=" ++ fmtV (flatMap.get "artifactRepositoryS3Endpoint") ++ "\n" ++
        "artifactRepositoryInsecure" ++ "=" ++ fmtV (flatMap.get "artifactRepositoryIS3nsecure") ++ "\n" ++
        "artifactRepositoryRegion" ++ "=" ++ fmtV (flatMap.get "artifactRepositoryS3Region") ++ "\n"
      .ok (fs.write paramsPath stringToWrite)
    else
      .fatal "Missing required values in params.yaml, artifactRepository. Check bucket, endpoint, or insecure." fs
  else .ok fs

/-- The file `logging-config-map.env` (lines 263-282). -/
def writeLoggingEnv (yamlFile : DynamicYaml) (flatMap : FlatMap) (fs : FileTree) : Outcome :=
  if yamlFile.HasKey "logging.image" && yamlFile.HasKey "logging.volumeStorage" then
    let paramsPath := filepathJoin [localManifestsCopyPath, "vars", "logging-config-map.env"]
    let stringToWrite :=
      "loggingImage" ++ "=" ++ fmtV (flatMap.get "loggingImage") ++ "\n" ++
      "loggingVolumeStorage" ++ "=" ++ fmtV (flatMap.get "loggingVolumeStorage") ++ "\n"
    .ok (fs.write paramsPath stringToWrite)
  else .ok fs

/-- The file `onepanel-config-map.env` (lines 284-303). -/
def writeOnepanelEnv (yamlFile : DynamicYaml) (flatMap : FlatMap) (fs : FileTree) : Outcome :=
  if yamlFile.HasKey "application.defaultNamespace" then
    let paramsPath := filepathJoin [localManifestsCopyPath, "vars", "onepanel-config-map.env"]
    let stringToWrite :=
      "applicationDefaultNamespace" ++ "=" ++ fmtV (flatMap.get "applicationDefaultNamespace") ++ "\n"
    .ok (fs.write paramsPath stringToWrite)
  else .fatal "Missing required values in params.yaml, applicationDefaultNamespace" fs

/-- The three projections in the order of the code (lines 235-303); file operations are
taken to succeed. -/
def writeEnvFiles (yamlFile : DynamicYaml) (flatMap : FlatMap) (fs : FileTree) : Outcome :=
  match writeWorkflowEnv yamlFile flatMap fs with
  | .fatal msg fs1 => .fatal msg fs1
  | .ok fs1 =>
    match writeLoggingEnv yamlFile flatMap fs1 with
    | .fatal msg fs2 => .fatal msg fs2
    | .ok fs2 => writeOnepanelEnv yamlFile flatMap fs2

/-! ## The configuration document with its nodes -/

/-- Modelled from the spec: the configuration tree `util.DynamicYaml` (not part of the
sources at hand) with its path-based lookup: the node found at each dotted path that is
present. -/
structure ParamsYaml where
  nodes : List (String × Node)

/-- The node at a dotted path in a list of paths and nodes. -/
def lookupNode : List (String × Node) → String → Option Node
  | [], _ => none
  | (path, node) :: rest, key => if path = key then some node else lookupNode rest key

/-- Modelled from the spec: `GetValue` of `util.DynamicYaml`, which is not part of the
sources at hand; the node at the path, and `none` for the Go `nil` that an absent path
gives (url.go, lines 22-27, tests for it). -/
def ParamsYaml.GetValue (yamlFile : ParamsYaml) (key : String) : Option Node :=
  lookupNode yamlFile.nodes key

/-- The paths that are present in the document, for `HasKey` and `HasKeys`. -/
def ParamsYaml.toDynamicYaml (yamlFile : ParamsYaml) : DynamicYaml :=
  { keys := yamlFile.nodes.map (fun entry => entry.1) }

/-! ## The injection of the option fragment (build.go, lines 163-164) -/

/-- The call of the option-list formatter on `GetValue("application.nodePool").Content` and
the insertion of its result under the key `applicationNodePoolOptions` (lines 163-164), seen
on the flat map. `none` is a run-time panic: the dereference `.Content` of the `nil` that
`GetValue` gives for an absent `application.nodePool`, or the panic of the formatter.
Modelled from the spec: `PutWithSeparator` and the flattening of the package `util` are not
part of the sources at hand; the string is inserted into the flat map under the synthetic
key. -/
def putApplicationNodePoolOptions (yamlFile : ParamsYaml) (flatMap : FlatMap) :
    Option FlatMap :=
  match yamlFile.GetValue "application.nodePool" with
  | none => none
  | some nodePool =>
    match generateApplicationNodePoolOptions nodePool.Content with
    | none => none
    | some applicationNodePoolOptionsConfigMapStr =>
      some (flatMap.set "applicationNodePoolOptions"
        (.str applicationNodePoolOptionsConfigMapStr))

/-! ## The run of `GenerateKustomizeResult` up to the environment files (lines 72-303) -/

/-- How the run ends: `return "", err`, a run-time panic, `log.Fatal`, or it gets past the
stage with a flat map; each carries the scratch tree of that moment. -/
inductive Run where
  | returned (err : String) (fs : FileTree)
  | panicked (fs : FileTree)
  | fatal (msg : String) (fs : FileTree)
  | ready (flatMap : FlatMap) (fs : FileTree)
  deriving DecidableEq, Repr

/-- Modelled from the spec: `files.CopyDir` of the package `files`, which is not part of the
sources at hand; every file of the manifests repository (path relative to its root) is
copied to the same relative path below the scratch directory. -/
def copyDir (manifests : FileTree) (dst : String) : FileTree :=
  manifests.map (fun entry => (filepathJoin [dst, entry.1], entry.2))

/-- The staging of the scratch tree (lines 76-110): a scratch tree left by an earlier run is
removed, the manifests are copied and `kustomization.yaml` is written with the marshalled
template. The file operations are taken to succeed. -/
def stageScratch (scratch manifests : FileTree) (kustomizeYaml : String) : FileTree :=
  let removed : FileTree := if scratch.isEmpty then scratch else []
  let copied := removed ++ copyDir manifests localManifestsCopyPath
  copied.write (filepathJoin [localManifestsCopyPath, "kustomization.yaml"]) kustomizeYaml

/-- The part of the run between the staging and the environment files (lines 112-233); it
writes no file. The exits that the inputs decide are kept: the dereference of the `nil` that
`GetValue` gives for an absent path (a panic), the missing settings file of line 118, the
configuration with neither an S3 nor a GCS section (line 215) and the missing
`workflow-config-map-hidden.env` of line 221. `yamlFile` and `cloudSettings` are the two
documents as loaded, and `flattened` is the flat map that `FlattenToKeyValue` returns at
line 217; the values that lines 128-211 compute and insert reach the later stages only
through it. Loading, decoding, marshalling and `bcrypt` are taken to succeed. -/
def prepareFlatMap (manifests : FileTree) (yamlFile cloudSettings : ParamsYaml)
    (flattened : FlatMap) (fs : FileTree) : Run :=
  match yamlFile.GetValue "application.fqdn" with
  | none => .panicked fs
  | some _ =>
  match manifests.read "vars/onepanel-config-map-hidden.env" with
  | none => .returned "open vars/onepanel-config-map-hidden.env: no such file or directory" fs
  | some _ =>
  match cloudSettings.GetValue "applicationCloudApiPath" with
  | none => .panicked fs
  | some _ =>
  match cloudSettings.GetValue "applicationCloudApiGRPCPort" with
  | none => .panicked fs
  | some _ =>
  match cloudSettings.GetValue "applicationCloudUiPath" with
  | none => .panicked fs
  | some _ =>
  match yamlFile.GetValue "application.insecure" with
  | none => .panicked fs
  | some _ =>
  match yamlFile.GetValue "application.nodePool" with
  | none => .panicked fs
  | some nodePool =>
  match generateApplicationNodePoolOptions nodePool.Content with
  | none => .panicked fs
  | some _ =>
  match yamlFile.GetValue "application.provider" with
  | none => .panicked fs
  | some provider =>
  if (provider.Value = "minikube" || provider.Value = "microk8s")
      && (yamlFile.GetValue "metalLb.addresses").isNone then .panicked fs
  else if (yamlFile.GetValue "artifactRepository.s3").isNone
      && (yamlFile.GetValue "artifactRepository.gcs").isNone then
    .returned "unsupported artifactRepository configuration" fs
  else
    match fs.read (filepathJoin [localManifestsCopyPath, "vars", "workflow-config-map-hidden.env"]) with
    | none => .returned "open workflow-config-map-hidden.env: no such file or directory" fs
    | some workflowEnvContStr => .ready (mergeEnv flattened workflowEnvContStr) fs

/-- The run from its start to the end of the projection into the environment files
(lines 72-303). -/
def runToEnvFiles (scratch manifests : FileTree) (kustomizeYaml : String)
    (yamlFile cloudSettings : ParamsYaml) (flattened : FlatMap) : Run :=
  match prepareFlatMap manifests yamlFile cloudSettings flattened
      (stageScratch scratch manifests kustomizeYaml) with
  | .ready flatMap fs =>
    match writeEnvFiles yamlFile.toDynamicYaml flatMap fs with
    | .ok fs1 => .ready flatMap fs1
    | .fatal msg fs1 => .fatal msg fs1
  | .returned err fs => .returned err fs
  | .panicked fs => .panicked fs
  | .fatal msg fs => .fatal msg fs

/-! ## The secrets file (build.go, lines 406-425) -/

/-- The path of the secrets file below the scratch directory (line 408). -/
def secretsPath (localManifestsCopyPath : String) : String :=
  filepathJoin [localManifestsCopyPath, "common", "onepanel", "base",
    "secret-onepanel-defaultnamespace.yaml"]

/-- The replacement of the placeholder token in the secrets file (lines 406-425): a missing
file is the error of `ioutil.ReadFile`; a content that holds the token is rewritten with
the first occurrence replaced; otherwise a message is printed and nothing is written. The
write itself is taken to succeed. -/
def replacePlaceholderForSecretManiFile (fs : FileTree) (localManifestsCopyPath : String)
    (artifactRepoSecretPlaceholder artifactRepoSecretVal : String) : Except String FileTree :=
  match fs.read (secretsPath localManifestsCopyPath) with
  | none => .error "no such file or directory"
  | some secretFileContentStr =>
    if Contains secretFileContentStr artifactRepoSecretPlaceholder then
      .ok (fs.write (secretsPath localManifestsCopyPath)
        (Replace secretFileContentStr artifactRepoSecretPlaceholder artifactRepoSecretVal 1))
    else .ok fs

/-! ## The substitution step without the guards -/

/-- The per-key step as claim C17 words it, for comparison with `substituteKey`: all
occurrences of `$(key)`, then of `$raw(key)`, then of `$base64(key)` are replaced, without
any test of the content. -/
def substituteKeyUnguarded (key : String) (value : FlatValue) (content : String) : String :=
  Replace
    (Replace (Replace content ("$(" ++ key ++ ")") (useStr value) (-1))
      ("$raw(" ++ key ++ ")") (rawStr value) (-1))
    ("$base64(" ++ key ++ ")") (EncodeToString (rawStr value)) (-1)

/-! ## The embedded library functions on known inputs -/

theorem Replace_examples :
    Replace "a$(k)b$(k)" "$(k)" "xy" (-1) = "axybxy" ∧
    Replace "a$(k)b$(k)" "$(k)" "xy" 1 = "axyb$(k)" ∧
    Replace "aaa" "aa" "b" (-1) = "ba" ∧
    Replace "ab" "" "-" (-1) = "-a-b-" ∧
    Replace "ab" "" "-" 2 = "-a-b" := by
  decide

theorem Split_examples :
    Split "a=b=c" "=" = ["a", "b", "c"] ∧
    Split "" "=" = [""] ∧
    Split "a\nb\n" "\n" = ["a", "b", ""] ∧
    Split "a--b" "--" = ["a", "b"] ∧
    Split "ab" "" = ["a", "b"] := by
  decide

theorem Contains_examples :
    Contains "hello" "ell" = true ∧ Contains "hello" "" = true ∧ Contains "hello" "lo!" = false := by
  decide

theorem EncodeToString_examples :
    EncodeToString "" = "" ∧ EncodeToString "f" = "Zg==" ∧ EncodeToString "fo" = "Zm8=" ∧
    EncodeToString "foo" = "Zm9v" ∧ EncodeToString "foobar" = "Zm9vYmFy" ∧
    EncodeToString "é€" = "w6nigqw=" := by
  decide

theorem FormatInt_examples :
    FormatInt 0 = "0" ∧ FormatInt 8888 = "8888" ∧ FormatInt (-12) = "-12" := by
  decide

theorem substituteContent_example :
    substituteContent [("k", .int 5)] "a $(k) $raw(k) $base64(k)" = "a \"5\" 5 NQ==" := by
  decide

/-! ## Lemmas on the `strings` functions -/

theorem containsChars_iff (sub s : List Char) : containsChars sub s = true ↔ sub <:+: s := by
  induction s with
  | nil => simp [containsChars, List.isPrefixOf_iff_prefix]
  | cons c cs ih =>
    simp only [containsChars, Bool.or_eq_true, ih, List.isPrefixOf_iff_prefix]
    exact List.infix_cons_iff.symm

theorem Contains_iff (s sub : String) : Contains s sub = true ↔ sub.data <:+: s.data :=
  containsChars_iff sub.data s.data

theorem containsChars_eq_false (sub s : List Char) :
    containsChars sub s = false ↔ ¬ sub <:+: s := by
  rw [← containsChars_iff]; simp

theorem Contains_eq_false (s sub : String) : Contains s sub = false ↔ ¬ sub.data <:+: s.data :=
  containsChars_eq_false sub.data s.data

theorem replaceChars_of_not_contains (old new : List Char) (n : Option Nat) (s : List Char)
    (h : containsChars old s = false) : replaceChars old new s 0 n = s := by
  induction s with
  | nil => simp [replaceChars]
  | cons c cs ih =>
    simp only [containsChars, Bool.or_eq_false_iff] at h
    rcases n with _ | _ | n
    · simp [replaceChars, h.1, ih h.2]
    · simp [replaceChars]
    · simp [replaceChars, h.1, ih h.2]

theorem replaceChars_skip_all (old new : List Char) (n : Option Nat) (s : List Char) (skip : Nat)
    (h : s.length ≤ skip) : replaceChars old new s skip n = [] := by
  induction s generalizing skip with
  | nil => simp [replaceChars]
  | cons c cs ih =>
    cases skip with
    | zero => simp at h
    | succ k => simp only [replaceChars]; exact ih k (by simpa using h)

theorem replaceChars_self (old new : List Char) (h : old ≠ []) :
    replaceChars old new old 0 none = new := by
  cases old with
  | nil => exact absurd rfl h
  | cons c cs =>
    have hp : (c :: cs).isPrefixOf (c :: cs) = true := by
      rw [List.isPrefixOf_iff_prefix]
    simp only [replaceChars, hp, if_true]
    rw [replaceChars_skip_all _ _ _ _ _ (by simp)]
    simp

theorem Replace_of_not_Contains (s old new : String) (n : Int) (h : Contains s old = false) :
    Replace s old new n = s := by
  have hold : old.data ≠ [] := by
    intro h0
    have : Contains s old = true := by
      rw [Contains_iff, h0]; exact List.nil_infix
    rw [h] at this; exact Bool.noConfusion this
  simp only [Replace, hold, if_false]
  rw [replaceChars_of_not_contains _ _ _ _ h]

theorem Replace_self (old new : String) (h : old.data ≠ []) : Replace old old new (-1) = new := by
  simp only [Replace, h, if_false]
  have : ((-1 : Int) < 0) := by decide
  simp only [this, if_true]
  rw [replaceChars_self _ _ h]

theorem guarded_Replace_of_not_Contains (s key old new : String) (n : Int)
    (h : Contains s old = false) : (if Contains s key then Replace s old new n else s) = s := by
  split
  · exact Replace_of_not_Contains s old new n h
  · rfl

theorem Contains_false_of_head_not_mem (s sub : String) (c : Char) (t : List Char)
    (hsub : sub.data = c :: t) (hc : c ∉ s.data) : Contains s sub = false := by
  rw [Contains_eq_false]
  intro hin
  exact hc (hin.subset (by rw [hsub]; exact List.mem_cons_self c t))

theorem Contains_false_of_append (s a b : String) (h : Contains s a = false) :
    Contains s (a ++ b) = false := by
  rw [Contains_eq_false] at h ⊢
  intro hin
  exact h (List.IsInfix.trans (List.prefix_append a.data b.data).isInfix hin)

theorem Contains_placeholder_key (pre key : String) : Contains (pre ++ key ++ ")") key = true := by
  rw [Contains_iff]
  exact ⟨pre.data, [')'], rfl⟩

/-! ## The three placeholder forms do not occur in one another -/

theorem formatted_not_in_raw (key : String) :
    Contains ("$raw(" ++ key ++ ")") ("$(" ++ key ++ ")") = false := by
  rw [Contains_eq_false]
  rintro ⟨pre, suf, h⟩
  change pre ++ ('$' :: '(' :: (key.data ++ [')'])) ++ suf
    = '$' :: 'r' :: 'a' :: 'w' :: '(' :: (key.data ++ [')']) at h
  have hl := congrArg List.length h
  rcases pre with _ | ⟨a, _ | ⟨b, _ | ⟨c, _ | ⟨d, pre⟩⟩⟩⟩
  · simp at h
  · simp at h
  · simp at h
  · simp at h
  · simp at hl; omega

theorem formatted_not_in_base64 (key : String) :
    Contains ("$base64(" ++ key ++ ")") ("$(" ++ key ++ ")") = false := by
  rw [Contains_eq_false]
  rintro ⟨pre, suf, h⟩
  change pre ++ ('$' :: '(' :: (key.data ++ [')'])) ++ suf
    = '$' :: 'b' :: 'a' :: 's' :: 'e' :: '6' :: '4' :: '(' :: (key.data ++ [')']) at h
  have hl := congrArg List.length h
  rcases pre with _ | ⟨a, _ | ⟨b, _ | ⟨c, _ | ⟨d, _ | ⟨e, _ | ⟨f, _ | ⟨g, pre⟩⟩⟩⟩⟩⟩⟩
  · simp at h
  · simp at h
  · simp at h
  · simp at h
  · simp at h
  · simp at h
  · simp at h
  · simp at hl; omega

theorem raw_not_in_base64 (key : String) :
    Contains ("$base64(" ++ key ++ ")") ("$raw(" ++ key ++ ")") = false := by
  rw [Contains_eq_false]
  rintro ⟨pre, suf, h⟩
  change pre ++ ('$' :: 'r' :: 'a' :: 'w' :: '(' :: (key.data ++ [')'])) ++ suf
    = '$' :: 'b' :: 'a' :: 's' :: 'e' :: '6' :: '4' :: '(' :: (key.data ++ [')']) at h
  have hl := congrArg List.length h
  rcases pre with _ | ⟨a, _ | ⟨b, _ | ⟨c, _ | ⟨d, pre⟩⟩⟩⟩
  · simp at h
  · simp at h
  · simp at h
  · simp at h
  · simp at hl; omega

/-! ## The text of booleans and integers holds no `$` -/

theorem digitChar_ne_dollar (m : Nat) (h : m < 10) : Nat.digitChar m ≠ '$' := by
  interval_cases m <;> decide

theorem toDigitsCore_no_dollar (fuel n : Nat) (ds : List Char) (h : '$' ∉ ds) :
    '$' ∉ Nat.toDigitsCore 10 fuel n ds := by
  induction fuel generalizing n ds with
  | zero => simpa [Nat.toDigitsCore] using h
  | succ k ih =>
    have hd : '$' ∉ Nat.digitChar (n % 10) :: ds := by
      simp only [List.mem_cons, not_or]
      exact ⟨fun e => digitChar_ne_dollar _ (Nat.mod_lt n (by decide)) e.symm, h⟩
    simp only [Nat.toDigitsCore]
    split
    · exact hd
    · exact ih _ _ hd

theorem FormatInt_no_dollar (i : Int) : '$' ∉ (FormatInt i).data := by
  unfold FormatInt
  split
  · change '$' ∉ '-' :: Nat.toDigitsCore 10 (i.natAbs + 1) i.natAbs []
    simp only [List.mem_cons, not_or]
    exact ⟨by decide, toDigitsCore_no_dollar _ _ _ (by simp)⟩
  · exact toDigitsCore_no_dollar _ _ _ (by simp)

theorem FormatBool_no_dollar (b : Bool) : '$' ∉ (FormatBool b).data := by
  cases b <;> decide

theorem quoted_FormatInt_no_dollar (i : Int) : '$' ∉ ("\"" ++ FormatInt i ++ "\"").data := by
  change '$' ∉ '"' :: ((FormatInt i).data ++ ['"'])
  simp only [List.mem_cons, List.mem_append, not_or]
  exact ⟨by decide, FormatInt_no_dollar i, by decide, by simp⟩

/-! ## One key on a content that is one placeholder -/

theorem substituteKey_formatted (key : String) (value : FlatValue)
    (h2 : Contains (useStr value) ("$raw(" ++ key ++ ")") = false)
    (h3 : Contains (useStr value) ("$base64(" ++ key ++ ")") = false) :
    substituteKey key value ("$(" ++ key ++ ")") = useStr value := by
  have hs : Replace ("$(" ++ key ++ ")") ("$(" ++ key ++ ")") (useStr value) (-1) = useStr value :=
    Replace_self _ _ (by change '$' :: '(' :: (key.data ++ [')']) ≠ []; simp)
  simp only [substituteKey, Contains_placeholder_key, if_true, hs]
  rw [guarded_Replace_of_not_Contains _ _ _ _ _ h2]
  exact guarded_Replace_of_not_Contains _ _ _ _ _ h3

theorem substituteKey_raw (key : String) (value : FlatValue)
    (h3 : Contains (rawStr value) ("$base64(" ++ key ++ ")") = false) :
    substituteKey key value ("$raw(" ++ key ++ ")") = rawStr value := by
  have hs : Replace ("$raw(" ++ key ++ ")") ("$raw(" ++ key ++ ")") (rawStr value) (-1)
      = rawStr value :=
    Replace_self _ _ (by change '$' :: 'r' :: 'a' :: 'w' :: '(' :: (key.data ++ [')']) ≠ []; simp)
  simp only [substituteKey, Contains_placeholder_key, if_true,
    Replace_of_not_Contains _ _ _ _ (formatted_not_in_raw key), hs]
  exact guarded_Replace_of_not_Contains _ _ _ _ _ h3

theorem substituteKey_base64 (key : String) (value : FlatValue) :
    substituteKey key value ("$base64(" ++ key ++ ")") = EncodeToString (rawStr value) := by
  have hs : Replace ("$base64(" ++ key ++ ")") ("$base64(" ++ key ++ ")")
      (EncodeToString (rawStr value)) (-1) = EncodeToString (rawStr value) :=
    Replace_self _ _ (by
      change '$' :: 'b' :: 'a' :: 's' :: 'e' :: '6' :: '4' :: '(' :: (key.data ++ [')']) ≠ []
      simp)
  simp only [substituteKey, Contains_placeholder_key, if_true,
    Replace_of_not_Contains _ _ _ _ (formatted_not_in_base64 key),
    Replace_of_not_Contains _ _ _ _ (raw_not_in_base64 key), hs]

theorem substituteKey_of_no_opener (key : String) (value : FlatValue) (content : String)
    (h1 : Contains content "$(" = false) (h2 : Contains content "$raw(" = false)
    (h3 : Contains content "$base64(" = false) : substituteKey key value content = content := by
  have e1 : Contains content ("$(" ++ key ++ ")") = false := by
    rw [String.append_assoc]; exact Contains_false_of_append _ _ _ h1
  have e2 : Contains content ("$raw(" ++ key ++ ")") = false := by
    rw [String.append_assoc]; exact Contains_false_of_append _ _ _ h2
  have e3 : Contains content ("$base64(" ++ key ++ ")") = false := by
    rw [String.append_assoc]; exact Contains_false_of_append _ _ _ h3
  simp only [substituteKey]
  rw [guarded_Replace_of_not_Contains _ _ _ _ _ e1, guarded_Replace_of_not_Contains _ _ _ _ _ e2]
  exact guarded_Replace_of_not_Contains _ _ _ _ _ e3

theorem substituteContent_single (key : String) (value : FlatValue) (content : String) :
    substituteContent [(key, value)] content = substituteKey key value content := rfl

/-! ## The base64 text of an integer starts differently from that of its quoted form -/

theorem toDigitsCore_head (fuel n : Nat) (ds : List Char) :
    ∃ m, m < 10 ∧ ∃ t, Nat.toDigitsCore 10 (fuel + 1) n ds = Nat.digitChar m :: t := by
  induction fuel generalizing n ds with
  | zero =>
    refine ⟨n % 10, Nat.mod_lt n (by decide), ds, ?_⟩
    show Nat.toDigitsCore 10 1 n ds = _
    rw [Nat.toDigitsCore]
    split
    · rfl
    · rw [Nat.toDigitsCore]
  | succ k ih =>
    rw [Nat.toDigitsCore]
    split
    · exact ⟨n % 10, Nat.mod_lt n (by decide), ds, rfl⟩
    · exact ih _ _

theorem encodeBytes_head (a : Nat) (rest : List Nat) :
    ∃ t, encodeBytes (a :: rest) = base64Char (a / 4) :: t := by
  rcases rest with _ | ⟨b, _ | ⟨c, rest⟩⟩
  · exact ⟨_, rfl⟩
  · exact ⟨_, rfl⟩
  · exact ⟨_, rfl⟩

theorem EncodeToString_head (c : Char) (t : List Char) (hc : c.toNat < 128) :
    ∃ r, (EncodeToString (String.mk (c :: t))).data = base64Char (c.toNat / 4) :: r := by
  have hb : stringBytes (String.mk (c :: t)) = c.toNat :: t.flatMap utf8Bytes := by
    simp [stringBytes, utf8Bytes, hc]
  simp only [EncodeToString, hb]
  exact encodeBytes_head _ _

theorem FormatInt_head (i : Int) :
    ∃ c t, (FormatInt i).data = c :: t ∧ (c = '-' ∨ ∃ m, m < 10 ∧ c = Nat.digitChar m) := by
  unfold FormatInt
  split
  · exact ⟨'-', _, rfl, Or.inl rfl⟩
  · obtain ⟨m, hm, t, ht⟩ := toDigitsCore_head i.toNat i.toNat []
    exact ⟨Nat.digitChar m, t, ht, Or.inr ⟨m, hm, rfl⟩⟩

theorem EncodeToString_FormatInt_ne_quoted (i : Int) :
    EncodeToString (FormatInt i) ≠ EncodeToString ("\"" ++ FormatInt i ++ "\"") := by
  obtain ⟨c, t, hct, hc⟩ := FormatInt_head i
  have hasc : c.toNat < 128 ∧ base64Char (c.toNat / 4) ≠ 'I' := by
    rcases hc with rfl | ⟨m, hm, rfl⟩
    · decide
    · interval_cases m <;> decide
  obtain ⟨r1, h1⟩ := EncodeToString_head c t hasc.1
  obtain ⟨r2, h2⟩ := EncodeToString_head '"' ((FormatInt i).data ++ ['"']) (by decide)
  have e1 : FormatInt i = String.mk (c :: t) := String.ext hct
  have e2 : "\"" ++ FormatInt i ++ "\"" = String.mk ('"' :: ((FormatInt i).data ++ ['"'])) :=
    String.ext rfl
  intro h
  rw [e2, String.ext_iff, h2] at h
  rw [e1, h1] at h
  have hh : base64Char (c.toNat / 4) = base64Char ('"'.toNat / 4) := (List.cons.inj h).1
  exact hasc.2 (hh.trans (by decide))

/-! ## The overlay composer -/

theorem appendOverlays_eq (resources : List String) (overlays : List Overlay) :
    appendOverlays resources overlays = resources ++ overlays.map (fun o => o.path) := by
  induction overlays generalizing resources with
  | nil => simp [appendOverlays]
  | cons o rest ih => simp [appendOverlays, ih]

theorem appendComponents_eq (resources : List String) (components : List OverlayComponent) :
    appendComponents resources components = resources ++ components.flatMap (fun c =>
      if c.overlays.isEmpty then [c.component.path] else c.overlays.map (fun o => o.path)) := by
  induction components generalizing resources with
  | nil => simp [appendComponents]
  | cons c rest ih =>
    obtain ⟨component, overlays⟩ := c
    cases overlays with
    | nil => simp [appendComponents, OverlayComponent.HasOverlays, ih]
    | cons o os => simp [appendComponents, OverlayComponent.HasOverlays, ih, appendOverlays_eq]

/-! ## Claims C1 to C5 -/

/-- Claim C1: the resources of the template are the concatenation, in input order, of the
contributions of the components: the base path of a component without overlays, the overlay
paths in their configured order otherwise; the example of the specification yields
`["a", "b/v1", "b/v2"]`. -/
theorem BuilderToTemplate_resources :
    (∀ builder : Builder, (BuilderToTemplate builder).Resources =
      builder.overlayComponents.flatMap (fun c =>
        if c.overlays.isEmpty then [c.component.path] else c.overlays.map (fun o => o.path))) ∧
    (BuilderToTemplate ⟨[⟨⟨"a"⟩, []⟩, ⟨⟨"b"⟩, [⟨"b/v1"⟩, ⟨"b/v2"⟩]⟩]⟩).Resources
      = ["a", "b/v1", "b/v2"] := by
  refine ⟨fun builder => ?_, by decide⟩
  simp [BuilderToTemplate, appendComponents_eq]

/-- Claim C2, as stated, fails: with the flat map `k -> "$base64(k)"` the content `$(k)` is not
rendered as the value itself, because the base64 replacement of the same key runs on the
text just inserted. -/
theorem formatted_placeholder_counterexample :
    substituteContent [("k", .str "$base64(k)")] "$(k)" = "JGJhc2U2NChrKQ==" ∧
    substituteContent [("k", .str "$base64(k)")] "$(k)" ≠ "$base64(k)" := by
  decide

/-- Claim C2, amended: on the content `$(K)` the flat map `K -> V` yields `V` unchanged for a
string `V` that holds neither `$raw(K)` nor `$base64(K)`, the text `true` or `false` for a
boolean and the decimal digits in double quotes for an integer. -/
theorem formatted_placeholder (K : String) :
    (∀ V : String, Contains V ("$raw(" ++ K ++ ")") = false →
      Contains V ("$base64(" ++ K ++ ")") = false →
      substituteContent [(K, .str V)] ("$(" ++ K ++ ")") = V) ∧
    (∀ b : Bool, substituteContent [(K, .bool b)] ("$(" ++ K ++ ")")
      = if b then "true" else "false") ∧
    (∀ i : Int, substituteContent [(K, .int i)] ("$(" ++ K ++ ")")
      = "\"" ++ FormatInt i ++ "\"") := by
  refine ⟨fun V h2 h3 => ?_, fun b => ?_, fun i => ?_⟩
  · exact substituteKey_formatted K (.str V) h2 h3
  · exact substituteKey_formatted K (.bool b)
      (Contains_false_of_head_not_mem _ _ '$' _ rfl (FormatBool_no_dollar b))
      (Contains_false_of_head_not_mem _ _ '$' _ rfl (FormatBool_no_dollar b))
  · exact substituteKey_formatted K (.int i)
      (Contains_false_of_head_not_mem _ _ '$' _ rfl (quoted_FormatInt_no_dollar i))
      (Contains_false_of_head_not_mem _ _ '$' _ rfl (quoted_FormatInt_no_dollar i))

/-- Witness of claim C2, amended: the key `applicationFqdn` with a host name that holds no
placeholder, with a boolean and with an integer. -/
theorem formatted_placeholder_witness :
    (Contains "app.example.com" ("$raw(" ++ "applicationFqdn" ++ ")") = false ∧
      Contains "app.example.com" ("$base64(" ++ "applicationFqdn" ++ ")") = false) ∧
    substituteContent [("applicationFqdn", .str "app.example.com")] "$(applicationFqdn)"
      = "app.example.com" ∧
    substituteContent [("applicationFqdn", .bool true)] "$(applicationFqdn)" = "true" ∧
    substituteContent [("applicationFqdn", .int 8888)] "$(applicationFqdn)" = "\"8888\"" :=
  ⟨by decide,
    (formatted_placeholder "applicationFqdn").1 "app.example.com" (by decide) (by decide),
    (formatted_placeholder "applicationFqdn").2.1 true,
    (formatted_placeholder "applicationFqdn").2.2 8888⟩

/-- Claim C3, as stated, fails: with the flat map `k -> "$base64(k)"` the content `$raw(k)` is
not rendered as the value itself but as its base64 text. -/
theorem raw_placeholder_counterexample :
    substituteContent [("k", .str "$base64(k)")] "$raw(k)" = "JGJhc2U2NChrKQ==" ∧
    substituteContent [("k", .str "$base64(k)")] "$raw(k)" ≠ "$base64(k)" := by
  decide

/-- Claim C3, amended: on the content `$raw(K)` the flat map `K -> V` yields `V` verbatim for
a string `V` that does not hold `$base64(K)`, the text `true` or `false` for a boolean and
the unquoted decimal digits for an integer. -/
theorem raw_placeholder (K : String) :
    (∀ V : String, Contains V ("$base64(" ++ K ++ ")") = false →
      substituteContent [(K, .str V)] ("$raw(" ++ K ++ ")") = V) ∧
    (∀ b : Bool, substituteContent [(K, .bool b)] ("$raw(" ++ K ++ ")")
      = if b then "true" else "false") ∧
    (∀ i : Int, substituteContent [(K, .int i)] ("$raw(" ++ K ++ ")") = FormatInt i) := by
  refine ⟨fun V h3 => ?_, fun b => ?_, fun i => ?_⟩
  · exact substituteKey_raw K (.str V) h3
  · exact substituteKey_raw K (.bool b)
      (Contains_false_of_head_not_mem _ _ '$' _ rfl (FormatBool_no_dollar b))
  · exact substituteKey_raw K (.int i)
      (Contains_false_of_head_not_mem _ _ '$' _ rfl (FormatInt_no_dollar i))

/-- Witness of claim C3, amended: the key `applicationApiGrpcPort` with a text that holds no
placeholder, with a boolean and with an integer. -/
theorem raw_placeholder_witness :
    Contains "eighty" ("$base64(" ++ "applicationApiGrpcPort" ++ ")") = false ∧
    substituteContent [("applicationApiGrpcPort", .str "eighty")] "$raw(applicationApiGrpcPort)"
      = "eighty" ∧
    substituteContent [("applicationApiGrpcPort", .bool false)] "$raw(applicationApiGrpcPort)"
      = "false" ∧
    substituteContent [("applicationApiGrpcPort", .int 8887)] "$raw(applicationApiGrpcPort)"
      = "8887" :=
  ⟨by decide,
    (raw_placeholder "applicationApiGrpcPort").1 "eighty" (by decide),
    (raw_placeholder "applicationApiGrpcPort").2.1 false,
    (raw_placeholder "applicationApiGrpcPort").2.2 8887⟩

theorem utf8Bytes_layout (c : Char) :
    (c.toNat < 0x80 → utf8Bytes c = [c.toNat]) ∧
    (0x80 ≤ c.toNat → c.toNat < 0x800 → ∃ b0 b1 : Nat, utf8Bytes c = [b0, b1] ∧
      0xC0 ≤ b0 ∧ b0 < 0xE0 ∧ 0x80 ≤ b1 ∧ b1 < 0xC0 ∧
      (b0 - 0xC0) * 64 + (b1 - 0x80) = c.toNat) ∧
    (0x800 ≤ c.toNat → c.toNat < 0x10000 → ∃ b0 b1 b2 : Nat, utf8Bytes c = [b0, b1, b2] ∧
      0xE0 ≤ b0 ∧ b0 < 0xF0 ∧ 0x80 ≤ b1 ∧ b1 < 0xC0 ∧ 0x80 ≤ b2 ∧ b2 < 0xC0 ∧
      (b0 - 0xE0) * 4096 + (b1 - 0x80) * 64 + (b2 - 0x80) = c.toNat) ∧
    (0x10000 ≤ c.toNat → ∃ b0 b1 b2 b3 : Nat, utf8Bytes c = [b0, b1, b2, b3] ∧
      0xF0 ≤ b0 ∧ b0 < 0xF8 ∧ 0x80 ≤ b1 ∧ b1 < 0xC0 ∧ 0x80 ≤ b2 ∧ b2 < 0xC0 ∧
      0x80 ≤ b3 ∧ b3 < 0xC0 ∧
      (b0 - 0xF0) * 262144 + (b1 - 0x80) * 4096 + (b2 - 0x80) * 64 + (b3 - 0x80) = c.toNat) := by
  have hlt : c.toNat < 0x110000 := by
    have hv := c.valid
    simp only [UInt32.isValidChar, Nat.isValidChar] at hv
    show c.val.toNat < 0x110000
    omega
  refine ⟨fun h1 => ?_, fun h1 h2 => ?_, fun h1 h2 => ?_, fun h1 => ?_⟩
  · simp [utf8Bytes, h1]
  · refine ⟨0xC0 + c.toNat / 64, 0x80 + c.toNat % 64, ?_, ?_⟩
    · have : ¬ c.toNat < 0x80 := by omega
      simp [utf8Bytes, this, h2]
    · omega
  · refine ⟨0xE0 + c.toNat / 4096, 0x80 + c.toNat / 64 % 64, 0x80 + c.toNat % 64, ?_, ?_⟩
    · have e1 : ¬ c.toNat < 0x80 := by omega
      have e2 : ¬ c.toNat < 0x800 := by omega
      simp [utf8Bytes, e1, e2, h2]
    · omega
  · refine ⟨0xF0 + c.toNat / 262144, 0x80 + c.toNat / 4096 % 64, 0x80 + c.toNat / 64 % 64,
      0x80 + c.toNat % 64, ?_, ?_⟩
    · have e1 : ¬ c.toNat < 0x80 := by omega
      have e2 : ¬ c.toNat < 0x800 := by omega
      have e3 : ¬ c.toNat < 0x10000 := by omega
      simp [utf8Bytes, e1, e2, e3]
    · omega

theorem encodeStd_get (i : Nat) (h : i < 64) :
    "ABCDEFGHIJKLMNOPQRSTUVWXYZabcdefghijklmnopqrstuvwxyz0123456789+/".data.get? i
      = some (base64Char i) := by
  interval_cases i <;> rfl

theorem encodeBytes_groups (a b c : Nat) (ha : a < 256) (hb : b < 256) (hc : c < 256) :
    (∃ c0 c1 c2 c3 : Char, encodeBytes [a, b, c] = [c0, c1, c2, c3] ∧
      "ABCDEFGHIJKLMNOPQRSTUVWXYZabcdefghijklmnopqrstuvwxyz0123456789+/".data.get?
        ((a * 65536 + b * 256 + c) / 262144 % 64) = some c0 ∧
      "ABCDEFGHIJKLMNOPQRSTUVWXYZabcdefghijklmnopqrstuvwxyz0123456789+/".data.get?
        ((a * 65536 + b * 256 + c) / 4096 % 64) = some c1 ∧
      "ABCDEFGHIJKLMNOPQRSTUVWXYZabcdefghijklmnopqrstuvwxyz0123456789+/".data.get?
        ((a * 65536 + b * 256 + c) / 64 % 64) = some c2 ∧
      "ABCDEFGHIJKLMNOPQRSTUVWXYZabcdefghijklmnopqrstuvwxyz0123456789+/".data.get?
        ((a * 65536 + b * 256 + c) % 64) = some c3) ∧
    (∃ c0 c1 c2 : Char, encodeBytes [a, b] = [c0, c1, c2, '='] ∧
      "ABCDEFGHIJKLMNOPQRSTUVWXYZabcdefghijklmnopqrstuvwxyz0123456789+/".data.get?
        ((a * 256 + b) * 4 / 4096 % 64) = some c0 ∧
      "ABCDEFGHIJKLMNOPQRSTUVWXYZabcdefghijklmnopqrstuvwxyz0123456789+/".data.get?
        ((a * 256 + b) * 4 / 64 % 64) = some c1 ∧
      "ABCDEFGHIJKLMNOPQRSTUVWXYZabcdefghijklmnopqrstuvwxyz0123456789+/".data.get?
        ((a * 256 + b) * 4 % 64) = some c2) ∧
    (∃ c0 c1 : Char, encodeBytes [a] = [c0, c1, '=', '='] ∧
      "ABCDEFGHIJKLMNOPQRSTUVWXYZabcdefghijklmnopqrstuvwxyz0123456789+/".data.get?
        (a * 16 / 64 % 64) = some c0 ∧
      "ABCDEFGHIJKLMNOPQRSTUVWXYZabcdefghijklmnopqrstuvwxyz0123456789+/".data.get?
        (a * 16 % 64) = some c1) := by
  refine ⟨⟨_, _, _, _, rfl, ?_, ?_, ?_, ?_⟩, ⟨_, _, _, rfl, ?_, ?_, ?_⟩, ⟨_, _, rfl, ?_, ?_⟩⟩
  · rw [show (a * 65536 + b * 256 + c) / 262144 % 64 = a / 4 by omega]
    exact encodeStd_get _ (by omega)
  · rw [show (a * 65536 + b * 256 + c) / 4096 % 64 = a % 4 * 16 + b / 16 by omega]
    exact encodeStd_get _ (by omega)
  · rw [show (a * 65536 + b * 256 + c) / 64 % 64 = b % 16 * 4 + c / 64 by omega]
    exact encodeStd_get _ (by omega)
  · rw [show (a * 65536 + b * 256 + c) % 64 = c % 64 by omega]
    exact encodeStd_get _ (by omega)
  · rw [show (a * 256 + b) * 4 / 4096 % 64 = a / 4 by omega]
    exact encodeStd_get _ (by omega)
  · rw [show (a * 256 + b) * 4 / 64 % 64 = a % 4 * 16 + b / 16 by omega]
    exact encodeStd_get _ (by omega)
  · rw [show (a * 256 + b) * 4 % 64 = b % 16 * 4 by omega]
    exact encodeStd_get _ (by omega)
  · rw [show a * 16 / 64 % 64 = a / 4 by omega]
    exact encodeStd_get _ (by omega)
  · rw [show a * 16 % 64 = a % 4 * 16 by omega]
    exact encodeStd_get _ (by omega)

/-- Claim C4: on the content `$base64(K)` the flat map `K -> V` yields the standard padded
base64 text of the raw text of `V`: of the string itself, of `true` or `false`, of the
unquoted decimal digits; for an integer this differs from the base64 text of the quoted
form. The encoding is pinned down on known texts (the vectors of RFC 4648, characters of
two, three and four bytes, both padding lengths, booleans and integers) and in general:
the bytes of a character are its UTF-8 form, three bytes give the four characters of the
alphabet at the sextets of their 24 bits, a rest of two bytes or one byte is padded with
one or two `=`, and the groups follow one another. -/
theorem base64_placeholder (K : String) :
    (∀ V : String, substituteContent [(K, .str V)] ("$base64(" ++ K ++ ")") = EncodeToString V) ∧
    (∀ b : Bool, substituteContent [(K, .bool b)] ("$base64(" ++ K ++ ")")
      = EncodeToString (if b then "true" else "false")) ∧
    (∀ i : Int, substituteContent [(K, .int i)] ("$base64(" ++ K ++ ")")
        = EncodeToString (FormatInt i) ∧
      substituteContent [(K, .int i)] ("$base64(" ++ K ++ ")")
        ≠ EncodeToString ("\"" ++ FormatInt i ++ "\"")) ∧
    (substituteContent [("k", .str "")] "$base64(k)" = "" ∧
      substituteContent [("k", .str "f")] "$base64(k)" = "Zg==" ∧
      substituteContent [("k", .str "fo")] "$base64(k)" = "Zm8=" ∧
      substituteContent [("k", .str "foo")] "$base64(k)" = "Zm9v" ∧
      substituteContent [("k", .str "foob")] "$base64(k)" = "Zm9vYg==" ∧
      substituteContent [("k", .str "fooba")] "$base64(k)" = "Zm9vYmE=" ∧
      substituteContent [("k", .str "foobar")] "$base64(k)" = "Zm9vYmFy" ∧
      substituteContent [("k", .str "é")] "$base64(k)" = "w6k=" ∧
      substituteContent [("k", .str "€")] "$base64(k)" = "4oKs" ∧
      substituteContent [("k", .str "😀")] "$base64(k)" = "8J+YgA==" ∧
      substituteContent [("k", .str "\uffff")] "$base64(k)" = "77+/" ∧
      substituteContent [("k", .bool true)] "$base64(k)" = "dHJ1ZQ==" ∧
      substituteContent [("k", .bool false)] "$base64(k)" = "ZmFsc2U=" ∧
      substituteContent [("k", .int 8888)] "$base64(k)" = "ODg4OA==" ∧
      substituteContent [("k", .int (-12))] "$base64(k)" = "LTEy" ∧
      substituteContent [("k", .int 0)] "$base64(k)" = "MA==") ∧
    (∀ V : String, EncodeToString V
      = String.mk (encodeBytes (V.data.flatMap utf8Bytes))) ∧
    (∀ c : Char,
      (c.toNat < 0x80 → utf8Bytes c = [c.toNat]) ∧
      (0x80 ≤ c.toNat → c.toNat < 0x800 → ∃ b0 b1 : Nat, utf8Bytes c = [b0, b1] ∧
        0xC0 ≤ b0 ∧ b0 < 0xE0 ∧ 0x80 ≤ b1 ∧ b1 < 0xC0 ∧
        (b0 - 0xC0) * 64 + (b1 - 0x80) = c.toNat) ∧
      (0x800 ≤ c.toNat → c.toNat < 0x10000 → ∃ b0 b1 b2 : Nat, utf8Bytes c = [b0, b1, b2] ∧
        0xE0 ≤ b0 ∧ b0 < 0xF0 ∧ 0x80 ≤ b1 ∧ b1 < 0xC0 ∧ 0x80 ≤ b2 ∧ b2 < 0xC0 ∧
        (b0 - 0xE0) * 4096 + (b1 - 0x80) * 64 + (b2 - 0x80) = c.toNat) ∧
      (0x10000 ≤ c.toNat → ∃ b0 b1 b2 b3 : Nat, utf8Bytes c = [b0, b1, b2, b3] ∧
        0xF0 ≤ b0 ∧ b0 < 0xF8 ∧ 0x80 ≤ b1 ∧ b1 < 0xC0 ∧ 0x80 ≤ b2 ∧ b2 < 0xC0 ∧
        0x80 ≤ b3 ∧ b3 < 0xC0 ∧
        (b0 - 0xF0) * 262144 + (b1 - 0x80) * 4096 + (b2 - 0x80) * 64 + (b3 - 0x80)
          = c.toNat)) ∧
    (∀ a b c : Nat, a < 256 → b < 256 → c < 256 →
      (∃ c0 c1 c2 c3 : Char, encodeBytes [a, b, c] = [c0, c1, c2, c3] ∧
        "ABCDEFGHIJKLMNOPQRSTUVWXYZabcdefghijklmnopqrstuvwxyz0123456789+/".data.get?
          ((a * 65536 + b * 256 + c) / 262144 % 64) = some c0 ∧
        "ABCDEFGHIJKLMNOPQRSTUVWXYZabcdefghijklmnopqrstuvwxyz0123456789+/".data.get?
          ((a * 65536 + b * 256 + c) / 4096 % 64) = some c1 ∧
        "ABCDEFGHIJKLMNOPQRSTUVWXYZabcdefghijklmnopqrstuvwxyz0123456789+/".data.get?
          ((a * 65536 + b * 256 + c) / 64 % 64) = some c2 ∧
        "ABCDEFGHIJKLMNOPQRSTUVWXYZabcdefghijklmnopqrstuvwxyz0123456789+/".data.get?
          ((a * 65536 + b * 256 + c) % 64) = some c3) ∧
      (∃ c0 c1 c2 : Char, encodeBytes [a, b] = [c0, c1, c2, '='] ∧
        "ABCDEFGHIJKLMNOPQRSTUVWXYZabcdefghijklmnopqrstuvwxyz0123456789+/".data.get?
          ((a * 256 + b) * 4 / 4096 % 64) = some c0 ∧
        "ABCDEFGHIJKLMNOPQRSTUVWXYZabcdefghijklmnopqrstuvwxyz0123456789+/".data.get?
          ((a * 256 + b) * 4 / 64 % 64) = some c1 ∧
        "ABCDEFGHIJKLMNOPQRSTUVWXYZabcdefghijklmnopqrstuvwxyz0123456789+/".data.get?
          ((a * 256 + b) * 4 % 64) = some c2) ∧
      (∃ c0 c1 : Char, encodeBytes [a] = [c0, c1, '=', '='] ∧
        "ABCDEFGHIJKLMNOPQRSTUVWXYZabcdefghijklmnopqrstuvwxyz0123456789+/".data.get?
          (a * 16 / 64 % 64) = some c0 ∧
        "ABCDEFGHIJKLMNOPQRSTUVWXYZabcdefghijklmnopqrstuvwxyz0123456789+/".data.get?
          (a * 16 % 64) = some c1)) ∧
    (encodeBytes [] = [] ∧ ∀ (a b c : Nat) (rest : List Nat),
      encodeBytes (a :: b :: c :: rest) = encodeBytes [a, b, c] ++ encodeBytes rest) := by
  refine ⟨fun V => ?_, fun b => ?_, fun i => ⟨?_, ?_⟩, ?_, fun V => rfl, utf8Bytes_layout,
    encodeBytes_groups, rfl, fun a b c rest => rfl⟩
  · exact substituteKey_base64 K (.str V)
  · exact substituteKey_base64 K (.bool b)
  · exact substituteKey_base64 K (.int i)
  · rw [substituteContent_single, substituteKey_base64]
    exact EncodeToString_FormatInt_ne_quoted i
  · decide

/-- Witness of claim C4: the character `é` (U+00E9) has the two bytes 195 and 169, and the
three bytes of `foo` give the characters `Zm9v`. -/
theorem base64_placeholder_witness :
    (0x80 ≤ 'é'.toNat ∧ 'é'.toNat < 0x800 ∧ (102 < 256 ∧ 111 < 256)) ∧
    (∃ b0 b1 : Nat, utf8Bytes 'é' = [b0, b1] ∧ (b0 - 0xC0) * 64 + (b1 - 0x80) = 'é'.toNat) ∧
    (∃ c0 c1 c2 c3 : Char, encodeBytes [102, 111, 111] = [c0, c1, c2, c3] ∧
      "ABCDEFGHIJKLMNOPQRSTUVWXYZabcdefghijklmnopqrstuvwxyz0123456789+/".data.get?
        ((102 * 65536 + 111 * 256 + 111) / 262144 % 64) = some c0) ∧
    substituteContent [("k", .str "foo")] "$base64(k)" = "Zm9v" :=
  ⟨by decide,
    let ⟨b0, b1, h1, _, _, _, _, h2⟩ := ((base64_placeholder "k").2.2.2.2.2.1 'é').2.1
      (by decide) (by decide)
    ⟨b0, b1, h1, h2⟩,
    let ⟨c0, c1, c2, c3, h1, h2, _⟩ := ((base64_placeholder "k").2.2.2.2.2.2.1 102 111 111
      (by decide) (by decide) (by decide)).1
    ⟨c0, c1, c2, c3, h1, h2⟩,
    (base64_placeholder "k").2.2.2.1.2.2.2.1⟩

/-- Claim C5: a content that holds none of the openers `$(`, `$raw(` and `$base64(` is
returned unchanged by the substitution pass, whatever the flat map holds. -/
theorem substitution_identity (flatMap : FlatMap) (content : String)
    (h1 : Contains content "$(" = false) (h2 : Contains content "$raw(" = false)
    (h3 : Contains content "$base64(" = false) : substituteContent flatMap content = content := by
  induction flatMap with
  | nil => rfl
  | cons entry rest ih =>
    simp only [substituteContent, List.foldl_cons] at ih ⊢
    rw [substituteKey_of_no_opener _ _ _ h1 h2 h3]
    exact ih

/-- Witness of claim C5: the keys `name` and `port` occur as plain text in the content, which
holds a dollar sign but no opener. -/
theorem substitution_identity_witness :
    (Contains "name: app\nport: 80 $ (name)\n" "$(" = false ∧
      Contains "name: app\nport: 80 $ (name)\n" "$raw(" = false ∧
      Contains "name: app\nport: 80 $ (name)\n" "$base64(" = false) ∧
    substituteContent [("name", .str "x"), ("port", .int 80)] "name: app\nport: 80 $ (name)\n"
      = "name: app\nport: 80 $ (name)\n" :=
  ⟨by decide, substitution_identity _ _ (by decide) (by decide) (by decide)⟩

/-! ## The fragment generators -/

theorem Join_empty_sep (elems : List String) : Join elems "" = String.join elems := by
  apply String.ext
  rw [String.data_join]
  induction elems with
  | nil => rfl
  | cons a rest ih =>
    cases rest with
    | nil => simp [Join]
    | cons b rest =>
      rw [Join, String.data_append, String.data_append, ih]
      simp

theorem String_join_cons (a : String) (rest : List String) :
    String.join (a :: rest) = a ++ String.join rest := by
  apply String.ext
  simp [String.data_join]

theorem String_join_append (xs ys : List String) :
    String.join (xs ++ ys) = String.join xs ++ String.join ys := by
  apply String.ext
  simp [String.data_join]

theorem metalLbLoop_strings (nodes : List Node) (idx : Nat) (appendStr : String)
    (lines : List String) (h : ∀ n ∈ nodes, n.Tag = "!!str") :
    metalLbLoop nodes (idx + 1) appendStr lines
      = lines ++ nodes.map (fun n => "      " ++ ("- " ++ n.Value ++ "\n")) := by
  induction nodes generalizing idx appendStr lines with
  | nil => simp [metalLbLoop]
  | cons n rest ih =>
    have hn : n.Tag = "!!str" := h n (List.mem_cons_self n rest)
    have hrest : ∀ m ∈ rest, m.Tag = "!!str" := fun m hm => h m (List.mem_cons_of_mem n hm)
    simp [metalLbLoop, hn, ih _ _ _ hrest]

theorem interleave_get (done rest : List (Node × Node)) (k v : Node) :
    ((done ++ (k, v) :: rest).flatMap (fun kv => [kv.1, kv.2])).get? (2 * done.length + 1)
      = some v := by
  induction done with
  | nil => simp
  | cons d ds ih =>
    have e : 2 * (d :: ds).length + 1 = (2 * ds.length + 1) + 2 := by simp; omega
    rw [e]
    simpa using ih

theorem field_line_quoted (p k v : String) :
    "    " ++ p ++ k ++ ": '" ++ v ++ "'\n" = "    " ++ p ++ k ++ ": " ++ ("'" ++ v ++ "'") ++ "\n" := by
  have e1 : (": '" : String) = ": " ++ "'" := by decide
  have e2 : ("'\n" : String) = "'" ++ "\n" := by decide
  rw [e1, e2]
  simp only [String.append_assoc]

theorem optionFields_pairs (done remaining : List (Node × Node)) (optionChunk : List String) :
    optionFields ((done ++ remaining).flatMap (fun kv => [kv.1, kv.2]))
        (remaining.flatMap (fun kv => [kv.1, kv.2])) (2 * done.length) optionChunk
      = some (optionChunk ++ remaining.map (fun kv =>
          "    " ++ (if Contains kv.1.Value "name" then "- " else "  ") ++ kv.1.Value ++ ": "
            ++ (if kv.2.Tag = "!!str" then "'" ++ kv.2.Value ++ "'" else kv.2.Value) ++ "\n")) := by
  induction remaining generalizing done optionChunk with
  | nil => simp [optionFields]
  | cons kv rest ih =>
    obtain ⟨k, v⟩ := kv
    have hstep := ih (done ++ [(k, v)])
    have e1 : done ++ [(k, v)] ++ rest = done ++ (k, v) :: rest := by simp
    have e2 : 2 * (done ++ [(k, v)]).length = 2 * done.length + 1 + 1 := by
      simp only [List.length_append, List.length_singleton]; omega
    rw [e1, e2] at hstep
    have heven : ¬ (2 * done.length % 2 = 1) := by omega
    have hodd : (2 * done.length + 1) % 2 = 1 := by omega
    have hcons : ((k, v) :: rest).flatMap (fun kv => [kv.1, kv.2])
        = k :: v :: rest.flatMap (fun kv => [kv.1, kv.2]) := by
      simp only [List.flatMap_cons, List.cons_append, List.nil_append]
    rw [hcons]
    by_cases hq : v.Tag = "!!str"
    · simp only [optionFields, heven, hodd, if_false, if_true, interleave_get, hstep, hq,
        decide_True, List.map_cons, field_line_quoted, List.append_assoc, List.singleton_append]
    · simp only [optionFields, heven, hodd, if_false, if_true, interleave_get, hstep, hq,
        decide_False, List.map_cons, List.append_assoc, List.singleton_append, Bool.false_eq_true]

theorem optionSets_pairs (optionsNodes : List Node) (sets : List (List (Node × Node)))
    (optionChunk : List String)
    (h : List.Forall₂ (fun optionNode fields =>
      optionNode.Content = fields.flatMap (fun kv => [kv.1, kv.2])) optionsNodes sets) :
    optionSets optionsNodes optionChunk
      = some (optionChunk ++ sets.flatMap (fun fields => fields.map (fun kv =>
          "    " ++ (if Contains kv.1.Value "name" then "- " else "  ") ++ kv.1.Value ++ ": "
            ++ (if kv.2.Tag = "!!str" then "'" ++ kv.2.Value ++ "'" else kv.2.Value) ++ "\n")
          ++ [""])) := by
  induction h generalizing optionChunk with
  | nil => simp [optionSets]
  | @cons optionNode fields nodes sets1 hnode _ ih =>
    have hf := optionFields_pairs [] fields optionChunk
    simp only [List.nil_append, List.length_nil, Nat.mul_zero] at hf
    simp only [optionSets, hnode, hf, ih, List.flatMap_cons, List.append_assoc]

theorem poolLoop_first_seq (pre post : List Node) (seqNode : Node)
    (hpre : ∀ n ∈ pre, n.Tag ≠ "!!seq") (hseq : seqNode.Tag = "!!seq") :
    poolLoop (pre ++ seqNode :: post) = optionSets seqNode.Content [] := by
  induction pre with
  | nil => simp [poolLoop, hseq]
  | cons n rest ih =>
    have hn : n.Tag ≠ "!!seq" := hpre n (List.mem_cons_self n rest)
    simp only [List.cons_append, poolLoop, hn, if_false]
    exact ih (fun m hm => hpre m (List.mem_cons_of_mem n hm))

theorem String_join_drop_empty {α : Type} (f : α → List String) (sets : List α) :
    String.join (sets.flatMap (fun fields => f fields ++ [""]))
      = String.join (sets.map f).flatten := by
  apply String.ext
  induction sets with
  | nil => rfl
  | cons a rest ih =>
    simp only [String.data_join] at ih
    simp [String.data_join, ih]

/-! ## Claims C6 to C8 -/

/-- Claim C6 does not hold of the code: the two visiting orders of one flat map render the
same content differently, when the value of one key holds a placeholder of another key (as
the value of `artifactRepositoryProvider` built in lines 187-195 does). -/
theorem rendering_depends_on_visiting_order :
    List.Perm
      [("artifactRepositoryProvider",
          FlatValue.str "s3:\n  accessKeySecret:\n    name: $(artifactRepositoryS3AccessKeySecretName)\n"),
        ("artifactRepositoryS3AccessKeySecretName", FlatValue.str "onepanel")]
      [("artifactRepositoryS3AccessKeySecretName", FlatValue.str "onepanel"),
        ("artifactRepositoryProvider",
          FlatValue.str "s3:\n  accessKeySecret:\n    name: $(artifactRepositoryS3AccessKeySecretName)\n")] ∧
    substituteContent
      [("artifactRepositoryProvider",
          .str "s3:\n  accessKeySecret:\n    name: $(artifactRepositoryS3AccessKeySecretName)\n"),
        ("artifactRepositoryS3AccessKeySecretName", .str "onepanel")]
      "$(artifactRepositoryProvider)"
      = "s3:\n  accessKeySecret:\n    name: onepanel\n" ∧
    substituteContent
      [("artifactRepositoryS3AccessKeySecretName", .str "onepanel"),
        ("artifactRepositoryProvider",
          .str "s3:\n  accessKeySecret:\n    name: $(artifactRepositoryS3AccessKeySecretName)\n")]
      "$(artifactRepositoryProvider)"
      = "s3:\n  accessKeySecret:\n    name: $(artifactRepositoryS3AccessKeySecretName)\n" ∧
    substituteContent
      [("artifactRepositoryProvider",
          .str "s3:\n  accessKeySecret:\n    name: $(artifactRepositoryS3AccessKeySecretName)\n"),
        ("artifactRepositoryS3AccessKeySecretName", .str "onepanel")]
      "$(artifactRepositoryProvider)"
    ≠ substituteContent
      [("artifactRepositoryS3AccessKeySecretName", .str "onepanel"),
        ("artifactRepositoryProvider",
          .str "s3:\n  accessKeySecret:\n    name: $(artifactRepositoryS3AccessKeySecretName)\n")]
      "$(artifactRepositoryProvider)" := by
  refine ⟨List.Perm.swap _ _ _, ?_, ?_, ?_⟩
  · decide
  · decide
  · decide

/-- Claim C7: on a non-empty list of string-tagged nodes the scalar-list formatter yields
the line `- v0` without indentation, followed by one line `- vi` behind six spaces for every
later node, in order. -/
theorem generateMetalLbAddresses_strings (node0 : Node) (rest : List Node)
    (h : ∀ n ∈ node0 :: rest, n.Tag = "!!str") :
    generateMetalLbAddresses (node0 :: rest)
      = "- " ++ node0.Value ++ "\n"
        ++ String.join (rest.map (fun n => "      " ++ ("- " ++ n.Value ++ "\n"))) := by
  have h0 : node0.Tag = "!!str" := h node0 (List.mem_cons_self node0 rest)
  have hrest : ∀ m ∈ rest, m.Tag = "!!str" := fun m hm => h m (List.mem_cons_of_mem node0 hm)
  simp only [generateMetalLbAddresses, metalLbLoop, h0, if_true, Nat.lt_irrefl, if_false,
    gt_iff_lt]
  rw [metalLbLoop_strings _ _ _ _ hrest, Join_empty_sep]
  simp [String_join_cons, String_join_append]

/-- Witness of claim C7: the two addresses of the specification; the first line is
`- 10.0.0.1`, the second one is `- 10.0.0.2` behind six spaces. -/
theorem generateMetalLbAddresses_strings_witness :
    (∀ n ∈ [Node.mk "!!str" "10.0.0.1" [], Node.mk "!!str" "10.0.0.2" []], n.Tag = "!!str") ∧
    generateMetalLbAddresses [.mk "!!str" "10.0.0.1" [], .mk "!!str" "10.0.0.2" []]
      = "- 10.0.0.1\n      - 10.0.0.2\n" :=
  ⟨by simp [Node.Tag],
    (generateMetalLbAddresses_strings (.mk "!!str" "10.0.0.1" []) [.mk "!!str" "10.0.0.2" []]
      (by simp [Node.Tag])).trans (by decide)⟩

/-- Claim C8: when the first sequence-tagged node holds option mappings, the output of the
option-list formatter is the header `|` on a line of its own followed by exactly one line per
key and value pair, in order: four spaces, `- ` for a key holding `name` and two spaces
otherwise, the key, a colon and a space, and the value, in single quotes when the value node
is string-tagged. -/
theorem generateApplicationNodePoolOptions_fields (pre post : List Node) (seqNode : Node)
    (sets : List (List (Node × Node)))
    (hpre : ∀ n ∈ pre, n.Tag ≠ "!!seq") (hseq : seqNode.Tag = "!!seq")
    (hsets : List.Forall₂ (fun optionNode fields =>
      optionNode.Content = fields.flatMap (fun kv => [kv.1, kv.2])) seqNode.Content sets) :
    generateApplicationNodePoolOptions (pre ++ seqNode :: post)
      = some ("|\n" ++ String.join (sets.map (fun fields => fields.map (fun kv =>
          "    " ++ (if Contains kv.1.Value "name" then "- " else "  ") ++ kv.1.Value ++ ": "
            ++ (if kv.2.Tag = "!!str" then "'" ++ kv.2.Value ++ "'" else kv.2.Value)
            ++ "\n"))).flatten) := by
  simp only [generateApplicationNodePoolOptions, poolLoop_first_seq pre post seqNode hpre hseq,
    optionSets_pairs _ _ _ hsets, List.nil_append, Join_empty_sep, String_join_drop_empty]
  simp only [List.singleton_append, String_join_cons]
  congr 2
  apply String.ext
  simp [String.data_join]

/-- Witness of claim C8: a label node followed by a sequence of two option sets. -/
theorem generateApplicationNodePoolOptions_fields_witness :
    generateApplicationNodePoolOptions
      [.mk "!!str" "label" [], .mk "!!seq" "" [
        .mk "!!map" "" [.mk "!!str" "name" [], .mk "!!str" "CPU" [],
          .mk "!!str" "value" [], .mk "!!int" "4" []],
        .mk "!!map" "" [.mk "!!str" "name" [], .mk "!!str" "GPU" []]]]
      = some "|\n    - name: 'CPU'\n      value: 4\n    - name: 'GPU'\n" :=
  (generateApplicationNodePoolOptions_fields [.mk "!!str" "label" []] []
    (.mk "!!seq" "" [
      .mk "!!map" "" [.mk "!!str" "name" [], .mk "!!str" "CPU" [],
        .mk "!!str" "value" [], .mk "!!int" "4" []],
      .mk "!!map" "" [.mk "!!str" "name" [], .mk "!!str" "GPU" []]])
    [[(.mk "!!str" "name" [], .mk "!!str" "CPU" []), (.mk "!!str" "value" [], .mk "!!int" "4" [])],
      [(.mk "!!str" "name" [], .mk "!!str" "GPU" [])]]
    (by simp [Node.Tag]) rfl
    (List.Forall₂.cons rfl (List.Forall₂.cons rfl List.Forall₂.nil))).trans (by decide)

/-! ## Splitting at a single character -/

theorem splitChars_ne_nil (sep s : List Char) (skip : Nat) (cur : List Char) :
    splitChars sep s skip cur ≠ [] := by
  induction s generalizing skip cur with
  | nil => simp [splitChars]
  | cons x xs ih =>
    cases skip with
    | succ k => simp only [splitChars]; exact ih _ _
    | zero =>
      simp only [splitChars]
      split
      · simp
      · exact ih _ _

theorem splitChars_piece (c : Char) (piece rest cur : List Char) (h : c ∉ piece) :
    splitChars [c] (piece ++ rest) 0 cur = splitChars [c] rest 0 (piece.reverse ++ cur) := by
  induction piece generalizing cur with
  | nil => rfl
  | cons x xs ih =>
    simp only [List.mem_cons, not_or] at h
    have hx : ([c].isPrefixOf (x :: (xs ++ rest))) = false := by
      simp [List.isPrefixOf, h.1]
    show splitChars [c] (x :: (xs ++ rest)) 0 cur = _
    rw [splitChars, if_neg (by rw [hx]; exact Bool.false_ne_true), ih _ h.2]
    simp

theorem splitChars_sep (c : Char) (rest cur : List Char) :
    splitChars [c] (c :: rest) 0 cur = cur.reverse :: splitChars [c] rest 0 [] := by
  have hx : ([c].isPrefixOf (c :: rest)) = true := by simp [List.isPrefixOf]
  simp [splitChars, hx]

theorem splitChars_one (c : Char) (s cur b : List Char) (h : splitChars [c] s 0 cur = [b]) :
    b = cur.reverse ++ s ∧ c ∉ s := by
  induction s generalizing cur with
  | nil => simp only [splitChars, List.cons.injEq, and_true] at h; simp [h]
  | cons x xs ih =>
    by_cases hx : x = c
    · subst hx
      rw [splitChars_sep] at h
      exact absurd (List.cons.inj h).2 (splitChars_ne_nil _ _ _ _)
    · have hp : ([c].isPrefixOf (x :: xs)) = false := by
        simp [List.isPrefixOf, Ne.symm hx]
      simp only [splitChars, hp] at h
      obtain ⟨h1, h2⟩ := ih _ h
      refine ⟨by simpa using h1, ?_⟩
      simp only [List.mem_cons, not_or]
      exact ⟨Ne.symm hx, h2⟩

theorem splitChars_two (c : Char) (s cur a b : List Char) (hcur : c ∉ cur)
    (h : splitChars [c] s 0 cur = [a, b]) :
    cur.reverse ++ s = a ++ c :: b ∧ c ∉ a ∧ c ∉ b := by
  induction s generalizing cur with
  | nil => simp [splitChars] at h
  | cons x xs ih =>
    by_cases hx : x = c
    · subst hx
      rw [splitChars_sep] at h
      obtain ⟨h1, h2⟩ := List.cons.inj h
      obtain ⟨h3, h4⟩ := splitChars_one _ _ _ _ h2
      subst h1
      simp only [List.reverse_nil, List.nil_append] at h3
      subst h3
      exact ⟨rfl, by simpa using hcur, h4⟩
    · have hp : ([c].isPrefixOf (x :: xs)) = false := by
        simp [List.isPrefixOf, Ne.symm hx]
      simp only [splitChars, hp] at h
      have hcur1 : c ∉ x :: cur := by
        simp only [List.mem_cons, not_or]
        exact ⟨Ne.symm hx, hcur⟩
      obtain ⟨h1, h2⟩ := ih _ hcur1 h
      exact ⟨by simpa using h1, h2⟩

theorem Split_key_value (K V : String) (hK : '=' ∉ K.data) (hV : '=' ∉ V.data) :
    Split (K ++ "=" ++ V) "=" = [K, V] := by
  have hd : (K ++ "=" ++ V).data = K.data ++ ('=' :: (V.data ++ [])) := by
    simp [String.data_append]
  have hs : ("=" : String).data = ['='] := rfl
  simp only [Split, hs, hd, List.cons_ne_nil, if_false]
  rw [splitChars_piece _ _ _ _ hK, splitChars_sep, splitChars_piece _ _ _ _ hV]
  simp [splitChars]

theorem Split_eq_pair (line a b : String) (h : Split line "=" = [a, b]) :
    line = a ++ "=" ++ b ∧ '=' ∉ b.data := by
  have hs : ("=" : String).data = ['='] := rfl
  simp only [Split, hs, List.cons_ne_nil, if_false] at h
  match hsp : splitChars ['='] line.data 0 [] with
  | [] => exact absurd hsp (splitChars_ne_nil _ _ _ _)
  | [x] => rw [hsp] at h; simp at h
  | x :: y :: z :: rest => rw [hsp] at h; simp at h
  | [x, y] =>
    rw [hsp] at h
    simp only [List.map_cons, List.map_nil, List.cons.injEq, and_true] at h
    obtain ⟨h1, h2, h3⟩ := splitChars_two _ _ _ _ _ (by simp) hsp
    refine ⟨String.ext ?_, ?_⟩
    · rw [← h.1, ← h.2]
      simpa using h1
    · rw [← h.2]; exact h3

theorem Join_cons_data (a : String) (rest : List String) (sep : String) (h : rest ≠ []) :
    (Join (a :: rest) sep).data = a.data ++ sep.data ++ (Join rest sep).data := by
  cases rest with
  | nil => exact absurd rfl h
  | cons b rest => rw [Join, String.data_append, String.data_append]

theorem splitChars_pieces (c : Char) (s cur : List Char) (hcur : c ∉ cur) :
    (∀ piece ∈ splitChars [c] s 0 cur, c ∉ piece) ∧
    (Join ((splitChars [c] s 0 cur).map String.mk) (String.mk [c])).data = cur.reverse ++ s := by
  induction s generalizing cur with
  | nil => simp [splitChars, Join, hcur]
  | cons x xs ih =>
    by_cases hx : x = c
    · subst hx
      obtain ⟨h1, h2⟩ := ih [] (by simp)
      rw [splitChars_sep]
      refine ⟨?_, ?_⟩
      · intro piece hp
        rcases List.mem_cons.mp hp with e | e
        · rw [e]; simpa using hcur
        · exact h1 piece e
      · rw [List.map_cons, Join_cons_data _ _ _ (by simpa using splitChars_ne_nil _ _ _ _), h2]
        simp
    · have hp : ([c].isPrefixOf (x :: xs)) = false := by
        simp [List.isPrefixOf, Ne.symm hx]
      have hcur1 : c ∉ x :: cur := by
        simp only [List.mem_cons, not_or]
        exact ⟨Ne.symm hx, hcur⟩
      obtain ⟨h1, h2⟩ := ih _ hcur1
      rw [splitChars, if_neg (by rw [hp]; exact Bool.false_ne_true)]
      exact ⟨h1, by simpa using h2⟩

theorem Split_newline_lines (content : String) :
    Split content "\n" ≠ [] ∧ (∀ l ∈ Split content "\n", '\n' ∉ l.data) ∧
    Join (Split content "\n") "\n" = content := by
  have hs : ("\n" : String).data = ['\n'] := rfl
  obtain ⟨h1, h2⟩ := splitChars_pieces '\n' content.data [] (by simp)
  simp only [Split, hs, List.cons_ne_nil, if_false]
  refine ⟨by simpa using splitChars_ne_nil _ _ _ _, ?_, ?_⟩
  · intro l hl
    obtain ⟨piece, hp, rfl⟩ := List.mem_map.mp hl
    exact h1 piece hp
  · exact String.ext (by simpa using h2)

theorem Join_newline_data (l : String) (rest : List String) (h : rest ≠ []) :
    (Join (l :: rest) "\n").data = l.data ++ '\n' :: (Join rest "\n").data := by
  rw [Join_cons_data _ _ _ h]
  have hs : ("\n" : String).data = ['\n'] := rfl
  rw [hs]
  simp

theorem splitChars_lines (lines : List String) (hne : lines ≠ [])
    (hnl : ∀ l ∈ lines, '\n' ∉ l.data) (cur : List Char) :
    (splitChars ['\n'] (Join lines "\n").data 0 cur).map String.mk
      = match lines with
        | [] => []
        | l :: rest => String.mk (cur.reverse ++ l.data) :: rest := by
  induction lines generalizing cur with
  | nil => exact absurd rfl hne
  | cons l rest ih =>
    have hl : '\n' ∉ l.data := hnl l (List.mem_cons_self l rest)
    cases rest with
    | nil =>
      have e : (Join [l] "\n").data = l.data ++ [] := by simp [Join]
      rw [e, splitChars_piece _ _ _ _ hl]
      simp [splitChars]
    | cons b rest =>
      rw [Join_newline_data _ _ (List.cons_ne_nil b rest), splitChars_piece _ _ _ _ hl,
        splitChars_sep]
      have hrest := ih (List.cons_ne_nil b rest)
        (fun m hm => hnl m (List.mem_cons_of_mem l hm)) []
      simp only [List.map_cons, hrest]
      simp

theorem Split_lines (lines : List String) (hne : lines ≠ [])
    (hnl : ∀ l ∈ lines, '\n' ∉ l.data) : Split (Join lines "\n") "\n" = lines := by
  have hs : ("\n" : String).data = ['\n'] := rfl
  simp only [Split, hs, List.cons_ne_nil, if_false]
  rw [splitChars_lines lines hne hnl []]
  cases lines with
  | nil => exact absurd rfl hne
  | cons l rest => simp

/-! ## The flat map and the scratch tree -/

theorem FlatMap.get_set_self (flatMap : FlatMap) (key : String) (value : FlatValue) :
    (flatMap.set key value).get key = some value := by
  induction flatMap with
  | nil => simp [FlatMap.set, FlatMap.get]
  | cons entry rest ih =>
    obtain ⟨k, v⟩ := entry
    by_cases hk : k = key
    · simp [FlatMap.set, FlatMap.get, hk]
    · simp [FlatMap.set, FlatMap.get, hk, ih]

theorem FlatMap.get_set_ne (flatMap : FlatMap) (key other : String) (value : FlatValue)
    (h : key ≠ other) : (flatMap.set key value).get other = flatMap.get other := by
  induction flatMap with
  | nil => simp [FlatMap.set, FlatMap.get, h]
  | cons entry rest ih =>
    obtain ⟨k, v⟩ := entry
    by_cases hk : k = key
    · subst hk
      simp [FlatMap.set, FlatMap.get, h]
    · by_cases ho : k = other
      · subst ho
        simp [FlatMap.set, FlatMap.get, hk]
      · simp [FlatMap.set, FlatMap.get, hk, ho, ih]

theorem mergeEnvLine_get_other (flatMap : FlatMap) (line K : String)
    (h : ∀ V : String, '=' ∉ V.data → line ≠ K ++ "=" ++ V) :
    (mergeEnvLine flatMap line).get K = flatMap.get K := by
  unfold mergeEnvLine
  split
  · rename_i key value heq
    obtain ⟨h1, h2⟩ := Split_eq_pair _ _ _ heq
    have hk : key ≠ K := by
      intro e
      subst e
      exact h value h2 h1
    exact FlatMap.get_set_ne _ _ _ _ hk
  · rfl

theorem foldl_mergeEnvLine_get_other (lines : List String) (flatMap : FlatMap) (K : String)
    (h : ∀ l ∈ lines, ∀ V : String, '=' ∉ V.data → l ≠ K ++ "=" ++ V) :
    (lines.foldl mergeEnvLine flatMap).get K = flatMap.get K := by
  induction lines generalizing flatMap with
  | nil => rfl
  | cons l rest ih =>
    rw [List.foldl_cons, ih _ (fun m hm => h m (List.mem_cons_of_mem l hm))]
    exact mergeEnvLine_get_other _ _ _ (h l (List.mem_cons_self l rest))

theorem FileTree.read_filter_ne (fs : FileTree) (path other : String) (h : other ≠ path) :
    FileTree.read (fs.filter (fun entry => entry.1 ≠ path)) other = FileTree.read fs other := by
  induction fs with
  | nil => rfl
  | cons entry rest ih =>
    obtain ⟨p, c⟩ := entry
    by_cases hp : p = path
    · subst hp
      have hpo : ¬ p = other := fun e => h e.symm
      simpa [List.filter, FileTree.read, hpo] using ih
    · by_cases ho : p = other
      · subst ho
        simp [List.filter, FileTree.read, hp]
      · simpa [List.filter, FileTree.read, hp, ho] using ih

theorem FileTree.read_write_self (fs : FileTree) (path content : String) :
    (fs.write path content).read path = some content := by
  simp [FileTree.write, FileTree.read]

theorem FileTree.read_write_ne (fs : FileTree) (path other content : String) (h : other ≠ path) :
    (fs.write path content).read other = fs.read other := by
  have hpo : ¬ path = other := fun e => h e.symm
  simp only [FileTree.write, FileTree.read, hpo, if_false]
  exact FileTree.read_filter_ne fs path other h

/-! ## Claims C9 and C10 -/

theorem writeEnvFiles_without_namespace (yamlFile : DynamicYaml) (flatMap : FlatMap)
    (fs : FileTree) (h : yamlFile.HasKey "application.defaultNamespace" = false) :
    ∃ msg textW textL, writeEnvFiles yamlFile flatMap fs = .fatal msg
      (if yamlFile.HasKey "artifactRepository.s3" && yamlFile.HasKeys
          ["artifactRepository.s3.bucket", "artifactRepository.s3.endpoint",
          "artifactRepository.s3.insecure", "artifactRepository.s3.region"] then
        (if yamlFile.HasKey "logging.image" && yamlFile.HasKey "logging.volumeStorage" then
          (FileTree.write fs ".onepanel/manifests/cache/vars/workflow-config-map.env" textW).write
            ".onepanel/manifests/cache/vars/logging-config-map.env" textL
        else FileTree.write fs ".onepanel/manifests/cache/vars/workflow-config-map.env" textW)
      else if !yamlFile.HasKey "artifactRepository.s3" &&
          (yamlFile.HasKey "logging.image" && yamlFile.HasKey "logging.volumeStorage") then
        FileTree.write fs ".onepanel/manifests/cache/vars/logging-config-map.env" textL
      else fs) := by
  have hW : filepathJoin [localManifestsCopyPath, "vars", "workflow-config-map.env"]
      = ".onepanel/manifests/cache/vars/workflow-config-map.env" := by decide
  have hL : filepathJoin [localManifestsCopyPath, "vars", "logging-config-map.env"]
      = ".onepanel/manifests/cache/vars/logging-config-map.env" := by decide
  refine ⟨if yamlFile.HasKey "artifactRepository.s3" && !yamlFile.HasKeys
      ["artifactRepository.s3.bucket", "artifactRepository.s3.endpoint",
        "artifactRepository.s3.insecure", "artifactRepository.s3.region"] then
      "Missing required values in params.yaml, artifactRepository. Check bucket, endpoint, or insecure."
    else "Missing required values in params.yaml, applicationDefaultNamespace",
    "artifactRepositoryBucket" ++ "=" ++ fmtV (flatMap.get "artifactRepositoryS3Bucket") ++ "\n" ++
      "artifactRepositoryEndpoint" ++ "=" ++ fmtV (flatMap.get "artifactRepositoryS3Endpoint") ++ "\n" ++
      "artifactRepositoryInsecure" ++ "=" ++ fmtV (flatMap.get "artifactRepositoryIS3nsecure") ++ "\n" ++
      "artifactRepositoryRegion" ++ "=" ++ fmtV (flatMap.get "artifactRepositoryS3Region") ++ "\n",
    "loggingImage" ++ "=" ++ fmtV (flatMap.get "loggingImage") ++ "\n" ++
      "loggingVolumeStorage" ++ "=" ++ fmtV (flatMap.get "loggingVolumeStorage") ++ "\n", ?_⟩
  cases hs3 : yamlFile.HasKey "artifactRepository.s3" <;>
    cases hall : yamlFile.HasKeys ["artifactRepository.s3.bucket",
      "artifactRepository.s3.endpoint", "artifactRepository.s3.insecure",
      "artifactRepository.s3.region"] <;>
    cases hl1 : yamlFile.HasKey "logging.image" <;>
    cases hl2 : yamlFile.HasKey "logging.volumeStorage" <;>
    simp [writeEnvFiles, writeWorkflowEnv, writeLoggingEnv, writeOnepanelEnv, h, hs3, hall,
      hl1, hl2, hW, hL]

theorem prepareFlatMap_tree (manifests : FileTree) (yamlFile cloudSettings : ParamsYaml)
    (flattened : FlatMap) (fs : FileTree) :
    (∃ err, prepareFlatMap manifests yamlFile cloudSettings flattened fs = .returned err fs) ∨
    prepareFlatMap manifests yamlFile cloudSettings flattened fs = .panicked fs ∨
    ∃ flatMap, prepareFlatMap manifests yamlFile cloudSettings flattened fs
      = .ready flatMap fs := by
  unfold prepareFlatMap
  repeat' split
  all_goals simp

theorem stageScratch_kustomization (scratch manifests : FileTree) (kustomizeYaml : String) :
    (stageScratch scratch manifests kustomizeYaml).read
      ".onepanel/manifests/cache/kustomization.yaml" = some kustomizeYaml := by
  have hK : filepathJoin [localManifestsCopyPath, "kustomization.yaml"]
      = ".onepanel/manifests/cache/kustomization.yaml" := by decide
  simp only [stageScratch, hK]
  exact FileTree.read_write_self _ _ _

theorem env_tree_other_paths (c1 c2 c3 : Bool) (fs : FileTree) (textW textL path : String)
    (h1 : path ≠ ".onepanel/manifests/cache/vars/workflow-config-map.env")
    (h2 : path ≠ ".onepanel/manifests/cache/vars/logging-config-map.env") :
    FileTree.read (if c1 then
        (if c2 then (FileTree.write fs
            ".onepanel/manifests/cache/vars/workflow-config-map.env" textW).write
            ".onepanel/manifests/cache/vars/logging-config-map.env" textL
        else FileTree.write fs ".onepanel/manifests/cache/vars/workflow-config-map.env" textW)
      else if c3 then
        FileTree.write fs ".onepanel/manifests/cache/vars/logging-config-map.env" textL
      else fs) path = fs.read path := by
  cases c1 <;> cases c2 <;> cases c3 <;>
    simp [FileTree.read_write_ne _ _ _ _ h1, FileTree.read_write_ne _ _ _ _ h2]

/-- Claim C9, as stated, fails: with the S3 and the logging sections fully configured and no
`application.defaultNamespace`, the run ends in the fatal abort of the namespace check, and
at that moment the pipeline has recreated the scratch tree (the file of the earlier run is
gone, the manifests are copied), has written `kustomization.yaml`, and has written
`workflow-config-map.env` and `logging-config-map.env`. -/
theorem missing_namespace_counterexample :
    DynamicYaml.HasKey (ParamsYaml.toDynamicYaml
      ⟨[("application.fqdn", .mk "!!str" "app.example.com" []),
        ("application.insecure", .mk "!!bool" "false" []),
        ("application.nodePool", .mk "!!map" ""
          [.mk "!!str" "label" [], .mk "!!str" "kubernetes.io/role" []]),
        ("application.provider", .mk "!!str" "eks" []),
        ("artifactRepository.s3", .mk "!!map" "" []),
        ("artifactRepository.s3.bucket", .mk "!!str" "b" []),
        ("artifactRepository.s3.endpoint", .mk "!!str" "e" []),
        ("artifactRepository.s3.insecure", .mk "!!bool" "false" []),
        ("artifactRepository.s3.region", .mk "!!str" "r" []),
        ("logging.image", .mk "!!str" "i" []),
        ("logging.volumeStorage", .mk "!!str" "v" [])]⟩) "application.defaultNamespace" = false ∧
    runToEnvFiles [(".onepanel/manifests/cache/stale.yaml", "old")]
      [("vars/onepanel-config-map-hidden.env", "applicationCloudApiPath: /api\n"),
        ("vars/workflow-config-map-hidden.env", "workflowPodGcStrategy=OnPodCompletion")]
      "kind: Kustomization\n"
      ⟨[("application.fqdn", .mk "!!str" "app.example.com" []),
        ("application.insecure", .mk "!!bool" "false" []),
        ("application.nodePool", .mk "!!map" ""
          [.mk "!!str" "label" [], .mk "!!str" "kubernetes.io/role" []]),
        ("application.provider", .mk "!!str" "eks" []),
        ("artifactRepository.s3", .mk "!!map" "" []),
        ("artifactRepository.s3.bucket", .mk "!!str" "b" []),
        ("artifactRepository.s3.endpoint", .mk "!!str" "e" []),
        ("artifactRepository.s3.insecure", .mk "!!bool" "false" []),
        ("artifactRepository.s3.region", .mk "!!str" "r" []),
        ("logging.image", .mk "!!str" "i" []),
        ("logging.volumeStorage", .mk "!!str" "v" [])]⟩
      ⟨[("applicationCloudApiPath", .mk "!!str" "/api" []),
        ("applicationCloudApiGRPCPort", .mk "!!int" "8887" []),
        ("applicationCloudUiPath", .mk "!!str" "/" [])]⟩
      [("artifactRepositoryS3Bucket", .str "b"), ("artifactRepositoryS3Endpoint", .str "e"),
        ("artifactRepositoryS3Insecure", .bool false), ("artifactRepositoryS3Region", .str "r"),
        ("loggingImage", .str "i"), ("loggingVolumeStorage", .str "v")]
    = .fatal "Missing required values in params.yaml, applicationDefaultNamespace"
        [(".onepanel/manifests/cache/vars/logging-config-map.env",
            "loggingImage=i\nloggingVolumeStorage=v\n"),
          (".onepanel/manifests/cache/vars/workflow-config-map.env",
            "artifactRepositoryBucket=b\nartifactRepositoryEndpoint=e\nartifactRepositoryInsecure=<nil>\nartifactRepositoryRegion=r\n"),
          (".onepanel/manifests/cache/kustomization.yaml", "kind: Kustomization\n"),
          (".onepanel/manifests/cache/vars/onepanel-config-map-hidden.env",
            "applicationCloudApiPath: /api\n"),
          (".onepanel/manifests/cache/vars/workflow-config-map-hidden.env",
            "workflowPodGcStrategy=OnPodCompletion")] := by
  refine ⟨?_, ?_⟩
  · decide
  · decide

/-- Claim C9, amended: when `application.defaultNamespace` is absent, the pipeline has
written `kustomization.yaml` into the recreated scratch tree before it reads the
configuration; lines 112-233 write no file and end the run with an error or a panic or hand
a flat map to the projection; a run that ends there ends with the staged tree; and a run
that gets to the projection aborts fatally. At the abort `workflow-config-map.env` has been
written exactly when the S3 section is present with its four keys, `logging-config-map.env`
exactly when the logging section has its two keys and the S3 section is absent or complete,
and no other file, so not `onepanel-config-map.env`, has been written by the projection. -/
theorem missing_namespace_aborts (scratch manifests : FileTree) (kustomizeYaml : String)
    (yamlFile cloudSettings : ParamsYaml) (flattened : FlatMap) (staged : FileTree)
    (hstaged : staged = stageScratch scratch manifests kustomizeYaml)
    (h : yamlFile.toDynamicYaml.HasKey "application.defaultNamespace" = false) :
    staged.read ".onepanel/manifests/cache/kustomization.yaml" = some kustomizeYaml ∧
    ((∃ err, prepareFlatMap manifests yamlFile cloudSettings flattened staged
        = .returned err staged) ∨
      prepareFlatMap manifests yamlFile cloudSettings flattened staged = .panicked staged ∨
      ∃ flatMap, prepareFlatMap manifests yamlFile cloudSettings flattened staged
        = .ready flatMap staged) ∧
    (∀ err, prepareFlatMap manifests yamlFile cloudSettings flattened staged
        = .returned err staged →
      runToEnvFiles scratch manifests kustomizeYaml yamlFile cloudSettings flattened
        = .returned err staged) ∧
    (prepareFlatMap manifests yamlFile cloudSettings flattened staged = .panicked staged →
      runToEnvFiles scratch manifests kustomizeYaml yamlFile cloudSettings flattened
        = .panicked staged) ∧
    (∀ flatMap, prepareFlatMap manifests yamlFile cloudSettings flattened staged
        = .ready flatMap staged →
      ∃ msg textW textL fs1, fs1 = (if yamlFile.toDynamicYaml.HasKey "artifactRepository.s3" && yamlFile.toDynamicYaml.HasKeys
          ["artifactRepository.s3.bucket", "artifactRepository.s3.endpoint",
          "artifactRepository.s3.insecure", "artifactRepository.s3.region"] then
        (if yamlFile.toDynamicYaml.HasKey "logging.image" && yamlFile.toDynamicYaml.HasKey "logging.volumeStorage" then
          (FileTree.write staged ".onepanel/manifests/cache/vars/workflow-config-map.env" textW).write
            ".onepanel/manifests/cache/vars/logging-config-map.env" textL
        else FileTree.write staged ".onepanel/manifests/cache/vars/workflow-config-map.env" textW)
      else if !yamlFile.toDynamicYaml.HasKey "artifactRepository.s3" &&
          (yamlFile.toDynamicYaml.HasKey "logging.image" && yamlFile.toDynamicYaml.HasKey "logging.volumeStorage") then
        FileTree.write staged ".onepanel/manifests/cache/vars/logging-config-map.env" textL
      else staged) ∧
        runToEnvFiles scratch manifests kustomizeYaml yamlFile cloudSettings flattened
          = .fatal msg fs1 ∧
        ∀ path, path ≠ ".onepanel/manifests/cache/vars/workflow-config-map.env" →
          path ≠ ".onepanel/manifests/cache/vars/logging-config-map.env" →
          fs1.read path = staged.read path) := by
  subst hstaged
  refine ⟨stageScratch_kustomization _ _ _, prepareFlatMap_tree _ _ _ _ _, fun err he => ?_,
    fun hp => ?_, fun flatMap hr => ?_⟩
  · simp only [runToEnvFiles, he]
  · simp only [runToEnvFiles, hp]
  · obtain ⟨msg, textW, textL, hw⟩ := writeEnvFiles_without_namespace yamlFile.toDynamicYaml
      flatMap (stageScratch scratch manifests kustomizeYaml) h
    refine ⟨msg, textW, textL, _, rfl, ?_, fun path h1 h2 => ?_⟩
    · simp only [runToEnvFiles, hr, hw]
    · exact env_tree_other_paths _ _ _ _ _ _ _ h1 h2

/-- Witness of claim C9, amended: a configuration with a GCS section and without the
namespace and the logging section; the run aborts fatally at the namespace check with the
staged tree, no environment file written. -/
theorem missing_namespace_aborts_witness :
    DynamicYaml.HasKey (ParamsYaml.toDynamicYaml
      ⟨[("application.fqdn", .mk "!!str" "app.example.com" []),
        ("application.insecure", .mk "!!bool" "false" []),
        ("application.nodePool", .mk "!!map" "" []),
        ("application.provider", .mk "!!str" "gke" []),
        ("artifactRepository.gcs", .mk "!!map" "" [])]⟩) "application.defaultNamespace" = false ∧
    ∃ msg fs1,
      runToEnvFiles [] [("vars/onepanel-config-map-hidden.env", ""),
          ("vars/workflow-config-map-hidden.env", "")] "kind: Kustomization\n"
        ⟨[("application.fqdn", .mk "!!str" "app.example.com" []),
          ("application.insecure", .mk "!!bool" "false" []),
          ("application.nodePool", .mk "!!map" "" []),
          ("application.provider", .mk "!!str" "gke" []),
          ("artifactRepository.gcs", .mk "!!map" "" [])]⟩
        ⟨[("applicationCloudApiPath", .mk "!!str" "/api" []),
          ("applicationCloudApiGRPCPort", .mk "!!int" "8887" []),
          ("applicationCloudUiPath", .mk "!!str" "/" [])]⟩ [] = .fatal msg fs1 ∧
      fs1.read ".onepanel/manifests/cache/vars/onepanel-config-map.env" = none ∧
      fs1.read ".onepanel/manifests/cache/kustomization.yaml" = some "kind: Kustomization\n" :=
  ⟨by decide,
    let ⟨msg, _, _, fs1, _, h2, h3⟩ := (missing_namespace_aborts []
      [("vars/onepanel-config-map-hidden.env", ""), ("vars/workflow-config-map-hidden.env", "")]
      "kind: Kustomization\n"
      ⟨[("application.fqdn", .mk "!!str" "app.example.com" []),
        ("application.insecure", .mk "!!bool" "false" []),
        ("application.nodePool", .mk "!!map" "" []),
        ("application.provider", .mk "!!str" "gke" []),
        ("artifactRepository.gcs", .mk "!!map" "" [])]⟩
      ⟨[("applicationCloudApiPath", .mk "!!str" "/api" []),
        ("applicationCloudApiGRPCPort", .mk "!!int" "8887" []),
        ("applicationCloudUiPath", .mk "!!str" "/" [])]⟩ [] _ rfl (by decide)).2.2.2.2
      [] (by decide)
    ⟨msg, fs1, h2, (h3 _ (by decide) (by decide)).trans (by decide),
      (h3 _ (by decide) (by decide)).trans (by decide)⟩⟩

/-- Claim C10, as stated, fails: a line `token=YQ==`, whose value holds further `=`, is
skipped by the parser, so the key keeps the value of the configuration, an earlier line
beats the last one, and a key that only such a line defines is absent. -/
theorem env_file_wins_counterexample :
    (mergeEnv [("token", .str "cfg")] "token=YQ==").get "token" = some (.str "cfg") ∧
    (mergeEnv [("token", .str "cfg")] "token=YQ==").get "token" ≠ some (.str "YQ==") ∧
    (mergeEnv [] "token=dA\ntoken=YQ==").get "token" = some (.str "dA") ∧
    (mergeEnv [] "token=YQ==").get "token" = none := by
  decide

/-- Claim C10, amended: every content of the environment file is the join of its lines, and
after the merge a key that a line `K=V` with exactly one `=` defines (key and value holding
no `=`) holds the string `V` of the last such line, whether or not the configuration defined
it; a key that no such line defines, also when a line with a further `=` names it, keeps
the value of the configuration. -/
theorem env_file_wins (flatMap : FlatMap) (K : String) :
    (∀ content : String, ∃ lines : List String,
      lines ≠ [] ∧ (∀ l ∈ lines, '\n' ∉ l.data) ∧ Join lines "\n" = content) ∧
    (∀ lines : List String, lines ≠ [] → (∀ l ∈ lines, '\n' ∉ l.data) →
      (∀ (pre post : List String) (V : String), lines = pre ++ (K ++ "=" ++ V) :: post →
        '=' ∉ K.data → '=' ∉ V.data →
        (∀ l ∈ post, ∀ V1 : String, '=' ∉ V1.data → l ≠ K ++ "=" ++ V1) →
        (mergeEnv flatMap (Join lines "\n")).get K = some (.str V)) ∧
      ((∀ l ∈ lines, ∀ V1 : String, '=' ∉ V1.data → l ≠ K ++ "=" ++ V1) →
        (mergeEnv flatMap (Join lines "\n")).get K = flatMap.get K)) := by
  refine ⟨fun content => ⟨Split content "\n", Split_newline_lines content⟩, ?_⟩
  intro lines hne hnl
  have hsplit : mergeEnv flatMap (Join lines "\n") = lines.foldl mergeEnvLine flatMap := by
    rw [mergeEnv, Split_lines lines hne hnl]
  rw [hsplit]
  refine ⟨fun pre post V hl hK hV hpost => ?_, fun hnone => ?_⟩
  · rw [hl, List.foldl_append, List.foldl_cons, foldl_mergeEnvLine_get_other _ _ _ hpost]
    simp only [mergeEnvLine, Split_key_value K V hK hV]
    exact FlatMap.get_set_self _ _ _
  · exact foldl_mergeEnvLine_get_other _ _ _ hnone

/-- Witness of claim C10, amended: the configuration defines `a` and `c`, the file defines
`a` twice and `b` once and holds a line `c=p=q` with a further `=`; `a` ends with the value
of the last line, `c` keeps the value of the configuration. -/
theorem env_file_wins_witness :
    (["a=x", "b=y", "a=z", "c=p=q"] ≠ ([] : List String) ∧
      ∀ l ∈ ["a=x", "b=y", "a=z", "c=p=q"], '\n' ∉ l.data) ∧
    (mergeEnv [("a", .int 1), ("c", .bool true)] (Join ["a=x", "b=y", "a=z", "c=p=q"] "\n")).get "a"
      = some (.str "z") ∧
    (mergeEnv [("a", .int 1), ("c", .bool true)] (Join ["a=x", "b=y", "a=z", "c=p=q"] "\n")).get "c"
      = some (.bool true) :=
  ⟨by decide,
    ((env_file_wins [("a", .int 1), ("c", .bool true)] "a").2 ["a=x", "b=y", "a=z", "c=p=q"]
      (by decide) (by decide)).1 ["a=x", "b=y"] ["c=p=q"] "z" rfl (by decide) (by decide) (by
        intro l hl V1 _ e
        subst e
        simp only [List.mem_singleton] at hl
        have := congrArg (fun t : String => t.data.head?) hl
        simp at this),
    (((env_file_wins [("a", .int 1), ("c", .bool true)] "c").2 ["a=x", "b=y", "a=z", "c=p=q"]
      (by decide) (by decide)).2 (by
        intro l hl V1 hV1 e
        subst e
        simp only [List.mem_cons, List.mem_singleton, List.not_mem_nil, or_false] at hl
        rcases hl with h | h | h | h
        · have := congrArg (fun t : String => t.data.head?) h
          simp at this
        · have := congrArg (fun t : String => t.data.head?) h
          simp at this
        · have := congrArg (fun t : String => t.data.head?) h
          simp at this
        · have hd := congrArg String.data h
          have hd1 : V1.data = ['p', '=', 'q'] := by simpa using hd
          exact hV1 (by rw [hd1]; decide))).trans (by decide)⟩

/-! ## Claims C11 to C13 -/

theorem poolLoop_no_seq (nodePoolData : List Node) (h : ∀ n ∈ nodePoolData, n.Tag ≠ "!!seq") :
    poolLoop nodePoolData = some [] := by
  induction nodePoolData with
  | nil => rfl
  | cons n rest ih =>
    have hn : n.Tag ≠ "!!seq" := h n (List.mem_cons_self n rest)
    simp only [poolLoop, hn, if_false]
    exact ih (fun m hm => h m (List.mem_cons_of_mem n hm))

theorem generateApplicationNodePoolOptions_no_seq (nodePoolData : List Node)
    (h : ∀ n ∈ nodePoolData, n.Tag ≠ "!!seq") :
    generateApplicationNodePoolOptions nodePoolData = some "|\n" := by
  simp only [generateApplicationNodePoolOptions, poolLoop_no_seq nodePoolData h]
  rfl

/-- Claim C11: the resources of a builder are the contributions of its components one after
the other; a component with overlays contributes exactly its overlay paths, so its base path
is not among them unless an overlay carries the same path; and every component contributes
either its base path alone (no overlays) or its overlay paths alone. -/
theorem overlays_replace_base :
    (∀ (pre post : List OverlayComponent) (c : OverlayComponent),
      (BuilderToTemplate ⟨pre ++ c :: post⟩).Resources
        = (BuilderToTemplate ⟨pre⟩).Resources ++ (BuilderToTemplate ⟨[c]⟩).Resources
          ++ (BuilderToTemplate ⟨post⟩).Resources) ∧
    (∀ c : OverlayComponent, c.overlays ≠ [] →
      (BuilderToTemplate ⟨[c]⟩).Resources = c.overlays.map (fun o => o.path) ∧
      (c.component.path ∉ c.overlays.map (fun o => o.path) →
        c.component.path ∉ (BuilderToTemplate ⟨[c]⟩).Resources)) ∧
    (∀ c : OverlayComponent,
      (c.overlays = [] ∧ (BuilderToTemplate ⟨[c]⟩).Resources = [c.component.path]) ∨
      (c.overlays ≠ [] ∧
        (BuilderToTemplate ⟨[c]⟩).Resources = c.overlays.map (fun o => o.path))) := by
  have hone : ∀ c : OverlayComponent, (BuilderToTemplate ⟨[c]⟩).Resources
      = if c.overlays.isEmpty then [c.component.path] else c.overlays.map (fun o => o.path) := by
    intro c
    simp [BuilderToTemplate, appendComponents_eq]
  refine ⟨fun pre post c => ?_, fun c hc => ?_, fun c => ?_⟩
  · simp [BuilderToTemplate, appendComponents_eq]
  · have he : c.overlays.isEmpty = false := by
      cases hov : c.overlays with
      | nil => exact absurd hov hc
      | cons o os => rfl
    rw [hone, he]
    exact ⟨rfl, fun hnot => hnot⟩
  · cases hov : c.overlays with
    | nil => exact Or.inl ⟨rfl, by rw [hone, hov]; rfl⟩
    | cons o os => exact Or.inr ⟨by simp, by rw [hone, hov]; rfl⟩

/-- Witness of claim C11: the component `b` with the overlays `b/v1` and `b/v2`. -/
theorem overlays_replace_base_witness :
    (OverlayComponent.mk ⟨"b"⟩ [⟨"b/v1"⟩, ⟨"b/v2"⟩]).overlays ≠ [] ∧
    (BuilderToTemplate ⟨[⟨⟨"b"⟩, [⟨"b/v1"⟩, ⟨"b/v2"⟩]⟩]⟩).Resources = ["b/v1", "b/v2"] ∧
    "b" ∉ (BuilderToTemplate ⟨[⟨⟨"b"⟩, [⟨"b/v1"⟩, ⟨"b/v2"⟩]⟩]⟩).Resources :=
  ⟨by decide,
    (overlays_replace_base.2.1 ⟨⟨"b"⟩, [⟨"b/v1"⟩, ⟨"b/v2"⟩]⟩ (by decide)).1,
    (overlays_replace_base.2.1 ⟨⟨"b"⟩, [⟨"b/v1"⟩, ⟨"b/v2"⟩]⟩ (by decide)).2 (by decide)⟩

/-- Claim C12 does not hold of the code: on a sequence of two option sets the output holds
the field lines of the second set right after those of the first one; split at the line
ends, it shows no empty line between them (the empty string that line 535 appends after an
option set adds nothing to the joined text). -/
theorem no_blank_line_between_option_sets :
    generateApplicationNodePoolOptions
      [.mk "!!str" "options" [], .mk "!!seq" "" [
        .mk "!!map" "" [.mk "!!str" "name" [], .mk "!!str" "CPU" [],
          .mk "!!str" "value" [], .mk "!!str" "Standard_D4s_v3" []],
        .mk "!!map" "" [.mk "!!str" "name" [], .mk "!!str" "GPU" [],
          .mk "!!str" "value" [], .mk "!!str" "Standard_NC6" []]]]
      = some "|\n    - name: 'CPU'\n      value: 'Standard_D4s_v3'\n    - name: 'GPU'\n      value: 'Standard_NC6'\n" ∧
    Split "|\n    - name: 'CPU'\n      value: 'Standard_D4s_v3'\n    - name: 'GPU'\n      value: 'Standard_NC6'\n" "\n"
      = ["|", "    - name: 'CPU'", "      value: 'Standard_D4s_v3'", "    - name: 'GPU'",
          "      value: 'Standard_NC6'", ""] := by
  refine ⟨?_, ?_⟩
  · decide
  · decide

/-- Claim C13, as stated, fails: on a node pool section that holds a label and no options
(no sequence-tagged node) the formatter is called all the same, returns the bare block
header, and the key `applicationNodePoolOptions` is inserted into the flat map with that
text. -/
theorem absent_section_counterexample :
    (∀ n ∈ [Node.mk "!!str" "label" [], Node.mk "!!str" "beta.kubernetes.io/instance-type" []],
      n.Tag ≠ "!!seq") ∧
    generateApplicationNodePoolOptions
      [.mk "!!str" "label" [], .mk "!!str" "beta.kubernetes.io/instance-type" []] = some "|\n" ∧
    putApplicationNodePoolOptions
      ⟨[("application.nodePool", .mk "!!map" ""
        [.mk "!!str" "label" [], .mk "!!str" "beta.kubernetes.io/instance-type" []])]⟩
      [("applicationFqdn", .str "app.example.com")]
      = some [("applicationFqdn", .str "app.example.com"),
          ("applicationNodePoolOptions", .str "|\n")] := by
  refine ⟨by simp [Node.Tag], ?_, ?_⟩
  · decide
  · decide

/-- Claim C13, amended: when `application.nodePool` is present and its content holds no
sequence-tagged node, the option-list formatter is not skipped: it returns the block header
`|` followed by a line end and nothing else, and the key `applicationNodePoolOptions` is
inserted into the flat map with that text, every other key keeping its value. When
`application.nodePool` itself is absent, the run panics at the dereference of line 163 and
nothing is inserted: the run never gets to a flat map. -/
theorem absent_section_gives_header (yamlFile : ParamsYaml) (flatMap : FlatMap) :
    (∀ nodePool : Node, yamlFile.GetValue "application.nodePool" = some nodePool →
      (∀ n ∈ nodePool.Content, n.Tag ≠ "!!seq") →
      generateApplicationNodePoolOptions nodePool.Content = some "|\n" ∧
      ∃ flatMap1, putApplicationNodePoolOptions yamlFile flatMap = some flatMap1 ∧
        flatMap1.get "applicationNodePoolOptions" = some (.str "|\n") ∧
        ∀ other : String, other ≠ "applicationNodePoolOptions" →
          flatMap1.get other = flatMap.get other) ∧
    (yamlFile.GetValue "application.nodePool" = none →
      putApplicationNodePoolOptions yamlFile flatMap = none ∧
      ∀ (manifests : FileTree) (cloudSettings : ParamsYaml) (flattened : FlatMap)
        (fs : FileTree) (merged : FlatMap),
        prepareFlatMap manifests yamlFile cloudSettings flattened fs ≠ .ready merged fs) := by
  refine ⟨fun nodePool hget hnone => ?_, fun habsent => ⟨?_, ?_⟩⟩
  · have hg := generateApplicationNodePoolOptions_no_seq nodePool.Content hnone
    refine ⟨hg, flatMap.set "applicationNodePoolOptions" (.str "|\n"), ?_,
      FlatMap.get_set_self _ _ _, fun other hne => FlatMap.get_set_ne _ _ _ _ (Ne.symm hne)⟩
    simp only [putApplicationNodePoolOptions, hget, hg]
  · simp only [putApplicationNodePoolOptions, habsent]
  · intro manifests cloudSettings flattened fs merged
    unfold prepareFlatMap
    rw [habsent]
    repeat' split
    all_goals simp_all

/-- Witness of claim C13, amended: a node pool section with a label and no options, in
front of a flat map that holds another key; and a document without the section. -/
theorem absent_section_gives_header_witness :
    (ParamsYaml.GetValue ⟨[("application.nodePool", .mk "!!map" ""
          [.mk "!!str" "label" [], .mk "!!str" "beta.kubernetes.io/instance-type" []])]⟩
        "application.nodePool" ≠ none ∧
      ∀ n ∈ [Node.mk "!!str" "label" [], Node.mk "!!str" "beta.kubernetes.io/instance-type" []],
        n.Tag ≠ "!!seq") ∧
    (∃ flatMap1, putApplicationNodePoolOptions
        ⟨[("application.nodePool", .mk "!!map" ""
          [.mk "!!str" "label" [], .mk "!!str" "beta.kubernetes.io/instance-type" []])]⟩
        [("applicationFqdn", .str "app.example.com")] = some flatMap1 ∧
      flatMap1.get "applicationNodePoolOptions" = some (.str "|\n") ∧
      flatMap1.get "applicationFqdn" = some (.str "app.example.com")) ∧
    putApplicationNodePoolOptions ⟨[("application.fqdn", .mk "!!str" "app.example.com" [])]⟩
      [("applicationFqdn", .str "app.example.com")] = none :=
  ⟨⟨by simp [ParamsYaml.GetValue, lookupNode], by simp [Node.Tag]⟩,
    let ⟨flatMap1, h1, h2, h3⟩ := ((absent_section_gives_header
      ⟨[("application.nodePool", .mk "!!map" ""
        [.mk "!!str" "label" [], .mk "!!str" "beta.kubernetes.io/instance-type" []])]⟩
      [("applicationFqdn", .str "app.example.com")]).1
      (.mk "!!map" "" [.mk "!!str" "label" [], .mk "!!str" "beta.kubernetes.io/instance-type" []])
      rfl (by simp [Node.Tag, Node.Content])).2
    ⟨flatMap1, h1, h2, (h3 "applicationFqdn" (by decide)).trans (by decide)⟩,
    ((absent_section_gives_header ⟨[("application.fqdn", .mk "!!str" "app.example.com" [])]⟩
      [("applicationFqdn", .str "app.example.com")]).2 rfl).1⟩

/-! ## The first occurrence of a token -/

theorem replaceChars_budget_zero (old new s : List Char) (skip : Nat) :
    replaceChars old new s skip (some 0) = s.drop skip := by
  induction s generalizing skip with
  | nil => simp [replaceChars]
  | cons c cs ih =>
    cases skip with
    | zero => simp [replaceChars]
    | succ k => simp only [replaceChars, List.drop_succ_cons]; exact ih k

theorem prefix_within_first (old pre post : List Char) (hpre : pre ≠ [])
    (h : old <+: pre ++ old ++ post) : old <+: pre ++ old.dropLast := by
  have h2 : pre ++ old.dropLast <+: pre ++ old ++ post := by
    rw [List.append_assoc]
    exact (List.prefix_append_right_inj pre).2
      ((List.dropLast_prefix old).trans (List.prefix_append old post))
  refine List.prefix_of_prefix_length_le h h2 ?_
  have hl : 0 < pre.length := List.length_pos.2 hpre
  simp only [List.length_append, List.length_dropLast]
  omega

theorem replaceChars_first (old new pre post : List Char) (hold : old ≠ [])
    (hfirst : ¬ old <:+: pre ++ old.dropLast) :
    replaceChars old new (pre ++ old ++ post) 0 (some 1) = pre ++ new ++ post := by
  induction pre with
  | nil =>
    cases old with
    | nil => exact absurd rfl hold
    | cons c cs =>
      have hp : (c :: cs).isPrefixOf (c :: (cs ++ post)) = true := by
        rw [List.isPrefixOf_iff_prefix]; exact List.prefix_append (c :: cs) post
      show replaceChars (c :: cs) new (c :: (cs ++ post)) 0 (some (0 + 1)) = _
      rw [replaceChars, if_pos hp, replaceChars_budget_zero]
      simp
  | cons x pre1 ih =>
    have hnp : ¬ old.isPrefixOf (x :: (pre1 ++ old ++ post)) = true := by
      rw [List.isPrefixOf_iff_prefix]
      intro hpfx
      have hpfx1 : old <+: (x :: pre1) ++ old ++ post := by simpa using hpfx
      exact hfirst (prefix_within_first old (x :: pre1) post (List.cons_ne_nil _ _) hpfx1).isInfix
    have hrest : ¬ old <:+: pre1 ++ old.dropLast := fun hin =>
      hfirst (by simpa using List.infix_cons hin)
    show replaceChars old new (x :: (pre1 ++ old ++ post)) 0 (some (0 + 1)) = _
    rw [replaceChars, if_neg hnp, ih hrest]
    simp

theorem first_occurrence_exists (old s : List Char) (hold : old ≠ []) (h : old <:+: s) :
    ∃ pre post, s = pre ++ old ++ post ∧ ¬ old <:+: pre ++ old.dropLast := by
  induction s with
  | nil => exact absurd (List.infix_nil.1 h) hold
  | cons c cs ih =>
    by_cases hp : old <+: c :: cs
    · obtain ⟨post, hpost⟩ := hp
      refine ⟨[], post, by simpa using hpost.symm, ?_⟩
      intro hin
      have hlen := hin.length_le
      have hpos : 0 < old.length := List.length_pos.2 hold
      simp only [List.nil_append, List.length_dropLast] at hlen
      omega
    · have hcs : old <:+: cs := by
        rcases List.infix_cons_iff.1 h with h1 | h1
        · exact absurd h1 hp
        · exact h1
      obtain ⟨pre, post, hs, hno⟩ := ih hcs
      refine ⟨c :: pre, post, by simp [hs], ?_⟩
      intro hin
      rcases List.infix_cons_iff.1 (by simpa using hin) with h1 | h1
      · apply hp
        have h2 : c :: (pre ++ old.dropLast) <+: c :: cs := by
          rw [hs, List.append_assoc]
          exact (List.prefix_append_right_inj (c :: pre)).2
            ((List.dropLast_prefix old).trans (List.prefix_append old post))
        exact h1.trans h2
      · exact hno h1

theorem Replace_first (pre token val post : String) (htoken : token ≠ "")
    (hfirst : Contains (pre ++ String.mk token.data.dropLast) token = false) :
    Replace (pre ++ token ++ post) token val 1 = pre ++ val ++ post := by
  have hold : token.data ≠ [] := fun h0 => htoken (String.ext h0)
  rw [Contains_eq_false] at hfirst
  simp only [Replace, hold, if_false]
  apply String.ext
  have h1 : ¬ ((1 : Int) < 0) := by decide
  have h2 : (1 : Int).toNat = 1 := rfl
  simp only [h1, h2, if_false, String.data_append]
  exact replaceChars_first _ _ _ _ hold hfirst

theorem Replace_empty_token (content val : String) :
    Replace content "" val 1 = val ++ content := by
  apply String.ext
  have h0 : ("" : String).data = [] := rfl
  have h1 : ¬ ((1 : Int) < 0) := by decide
  have h2 : (1 : Int).toNat = 1 := rfl
  simp only [Replace, h0, h1, h2, if_true, if_false, String.data_append]
  cases content.data with
  | nil => simp [insertChars]
  | cons c cs => cases cs <;> simp [insertChars]

/-! ## Claim C14 -/

/-- Claim C14: on a secrets file with the content `pre ++ token ++ post`, where the token
does not occur before the end of that occurrence, the new content is `pre ++ val ++ post`,
so that later occurrences (in `post`) stay; a content that holds the token has such a first
occurrence; a content that does not hold the token leaves the scratch tree as it is,
without an error; the empty token, which occurs first at the very start, puts the value in
front of the content. No other file is touched. -/
theorem secret_token_replaced_once (fs : FileTree) (dir token val content : String)
    (hread : fs.read (secretsPath dir) = some content) :
    (∀ pre post : String, token ≠ "" → content = pre ++ token ++ post →
      Contains (pre ++ String.mk token.data.dropLast) token = false →
      ∃ fs1, replacePlaceholderForSecretManiFile fs dir token val = .ok fs1 ∧
        fs1.read (secretsPath dir) = some (pre ++ val ++ post) ∧
        ∀ path, path ≠ secretsPath dir → fs1.read path = fs.read path) ∧
    (token ≠ "" → Contains content token = true →
      ∃ pre post : String, content = pre ++ token ++ post ∧
        Contains (pre ++ String.mk token.data.dropLast) token = false) ∧
    (Contains content token = false →
      replacePlaceholderForSecretManiFile fs dir token val = .ok fs) ∧
    (token = "" →
      replacePlaceholderForSecretManiFile fs dir token val
        = .ok (fs.write (secretsPath dir) (val ++ content))) := by
  refine ⟨fun pre post htoken hc hfirst => ?_, fun htoken hin => ?_, fun hnot => ?_,
    fun hempty => ?_⟩
  · have hcont : Contains content token = true := by
      rw [Contains_iff, hc]
      exact ⟨pre.data, post.data, rfl⟩
    refine ⟨fs.write (secretsPath dir) (Replace content token val 1), ?_, ?_, ?_⟩
    · simp only [replacePlaceholderForSecretManiFile, hread, hcont, if_true]
    · rw [FileTree.read_write_self, hc, Replace_first pre token val post htoken hfirst]
    · intro path hpath
      exact FileTree.read_write_ne _ _ _ _ hpath
  · have hold : token.data ≠ [] := fun h0 => htoken (String.ext h0)
    obtain ⟨pre, post, hs, hno⟩ := first_occurrence_exists token.data content.data hold
      ((Contains_iff _ _).1 hin)
    refine ⟨String.mk pre, String.mk post, String.ext (by simpa using hs), ?_⟩
    rw [Contains_eq_false]
    exact hno
  · simp only [replacePlaceholderForSecretManiFile, hread, hnot, Bool.false_eq_true, if_false]
  · subst hempty
    have hcont : Contains content "" = true := by
      rw [Contains_iff]; exact List.nil_infix
    simp only [replacePlaceholderForSecretManiFile, hread, hcont, if_true, Replace_empty_token]

/-- Witness of claim C14: a secrets file that holds the placeholder of the secret twice;
only the first one is replaced. -/
theorem secret_token_replaced_once_witness :
    FileTree.read [(secretsPath ".onepanel/manifests/cache",
        "data:\n  $(artifactRepositoryProviderSecret)\n# $(artifactRepositoryProviderSecret)\n")]
      (secretsPath ".onepanel/manifests/cache")
      = some "data:\n  $(artifactRepositoryProviderSecret)\n# $(artifactRepositoryProviderSecret)\n" ∧
    ∃ fs1, replacePlaceholderForSecretManiFile
        [(secretsPath ".onepanel/manifests/cache",
          "data:\n  $(artifactRepositoryProviderSecret)\n# $(artifactRepositoryProviderSecret)\n")]
        ".onepanel/manifests/cache" "$(artifactRepositoryProviderSecret)"
        "serviceAccountKey: 'k'" = .ok fs1 ∧
      fs1.read (secretsPath ".onepanel/manifests/cache")
        = some ("data:\n  " ++ "serviceAccountKey: 'k'"
            ++ "\n# $(artifactRepositoryProviderSecret)\n") :=
  ⟨by decide,
    let ⟨fs1, h1, h2, _⟩ := (secret_token_replaced_once
      [(secretsPath ".onepanel/manifests/cache",
        "data:\n  $(artifactRepositoryProviderSecret)\n# $(artifactRepositoryProviderSecret)\n")]
      ".onepanel/manifests/cache" "$(artifactRepositoryProviderSecret)"
      "serviceAccountKey: 'k'"
      "data:\n  $(artifactRepositoryProviderSecret)\n# $(artifactRepositoryProviderSecret)\n"
      (by decide)).1 "data:\n  " "\n# $(artifactRepositoryProviderSecret)\n"
      (by decide) (by decide) (by decide)
    ⟨fs1, h1, h2⟩⟩

/-! ## A placeholder of one key does not occur in a placeholder of another key -/

theorem prefix_split_at (c : Char) (a1 a2 r1 r2 : List Char) (h1 : c ∉ a1) (h2 : c ∉ a2)
    (h : a1 ++ c :: r1 <+: a2 ++ c :: r2) : a1 = a2 ∧ r1 <+: r2 := by
  induction a1 generalizing a2 with
  | nil =>
    cases a2 with
    | nil => exact ⟨rfl, (List.cons_prefix_cons.1 h).2⟩
    | cons y a2 =>
      have hy : c = y := (List.cons_prefix_cons.1 h).1
      exact absurd (hy ▸ List.mem_cons_self c a2) h2
  | cons x a1 ih =>
    cases a2 with
    | nil =>
      have hx : x = c := (List.cons_prefix_cons.1 h).1
      exact absurd (hx ▸ List.mem_cons_self x a1) h1
    | cons y a2 =>
      obtain ⟨hxy, hrest⟩ := List.cons_prefix_cons.1 h
      obtain ⟨e, hr⟩ := ih a2 (fun hm => h1 (List.mem_cons_of_mem x hm))
        (fun hm => h2 (List.mem_cons_of_mem y hm)) hrest
      exact ⟨by rw [hxy, e], hr⟩

theorem placeholder_not_in_other (f1 f2 K1 K2 : List Char) (hf1 : '(' ∉ f1) (hf2 : '(' ∉ f2)
    (hd : '$' ∉ f2) (hK2d : '$' ∉ K2) (hK1 : ')' ∉ K1) (hK2 : ')' ∉ K2) (hne : K1 ≠ K2) :
    ¬ ('$' :: (f1 ++ '(' :: (K1 ++ [')']))) <:+: ('$' :: (f2 ++ '(' :: (K2 ++ [')']))) := by
  intro hin
  have hpfx : ('$' :: (f1 ++ '(' :: (K1 ++ [')']))) <+: ('$' :: (f2 ++ '(' :: (K2 ++ [')']))) := by
    rcases List.infix_cons_iff.1 hin with h | h
    · exact h
    · have hmem : '$' ∈ f2 ++ '(' :: (K2 ++ [')']) := h.subset (List.mem_cons_self _ _)
      simp only [List.mem_append, List.mem_cons, List.mem_singleton, List.not_mem_nil,
        or_false] at hmem
      rcases hmem with h | h | h | h
      · exact absurd h hd
      · exact absurd h (by decide)
      · exact absurd h hK2d
      · exact absurd h (by decide)
  obtain ⟨_, hkeys⟩ := prefix_split_at '(' f1 f2 _ _ hf1 hf2 (List.cons_prefix_cons.1 hpfx).2
  exact hne (prefix_split_at ')' K1 K2 [] [] hK1 hK2 hkeys).1

theorem alphanum_ne_dollar (K : String) (h : ∀ c ∈ K.data, c.isAlphanum = true) :
    '$' ∉ K.data := fun hm => absurd (h '$' hm) (by decide)

theorem alphanum_ne_paren (K : String) (h : ∀ c ∈ K.data, c.isAlphanum = true) :
    ')' ∉ K.data := fun hm => absurd (h ')' hm) (by decide)

theorem substituteKey_of_no_pattern (key : String) (value : FlatValue) (content : String)
    (e1 : Contains content ("$(" ++ key ++ ")") = false)
    (e2 : Contains content ("$raw(" ++ key ++ ")") = false)
    (e3 : Contains content ("$base64(" ++ key ++ ")") = false) :
    substituteKey key value content = content := by
  simp only [substituteKey]
  rw [guarded_Replace_of_not_Contains _ _ _ _ _ e1, guarded_Replace_of_not_Contains _ _ _ _ _ e2]
  exact guarded_Replace_of_not_Contains _ _ _ _ _ e3

theorem other_key_patterns_absent (K1 K2 : String) (f2 : List Char) (hf2 : '(' ∉ f2)
    (hd : '$' ∉ f2) (hK2d : '$' ∉ K2.data) (hK1 : ')' ∉ K1.data) (hK2 : ')' ∉ K2.data)
    (hne : K1 ≠ K2) (content : String)
    (hc : content.data = '$' :: (f2 ++ '(' :: (K2.data ++ [')']))) :
    Contains content ("$(" ++ K1 ++ ")") = false ∧
    Contains content ("$raw(" ++ K1 ++ ")") = false ∧
    Contains content ("$base64(" ++ K1 ++ ")") = false := by
  have hne1 : K1.data ≠ K2.data := fun e => hne (String.ext e)
  refine ⟨?_, ?_, ?_⟩
  · rw [Contains_eq_false, hc]
    exact placeholder_not_in_other [] f2 _ _ (by simp) hf2 hd hK2d hK1 hK2 hne1
  · rw [Contains_eq_false, hc]
    exact placeholder_not_in_other ['r', 'a', 'w'] f2 _ _ (by decide) hf2 hd hK2d hK1 hK2 hne1
  · rw [Contains_eq_false, hc]
    exact placeholder_not_in_other ['b', 'a', 's', 'e', '6', '4'] f2 _ _ (by decide) hf2 hd
      hK2d hK1 hK2 hne1

/-! ## Claims C15 to C17 -/

/-- Claim C15: for distinct keys `K1` and `K2` made of letters and digits (also when `K1` is a
part of `K2`) the flat map `K1 -> V` leaves each of the contents `$(K2)`, `$raw(K2)` and
`$base64(K2)` unchanged. -/
theorem placeholder_needs_exact_key (K1 K2 : String) (V : FlatValue)
    (h1 : ∀ c ∈ K1.data, c.isAlphanum = true) (h2 : ∀ c ∈ K2.data, c.isAlphanum = true)
    (hne : K1 ≠ K2) :
    substituteContent [(K1, V)] ("$(" ++ K2 ++ ")") = "$(" ++ K2 ++ ")" ∧
    substituteContent [(K1, V)] ("$raw(" ++ K2 ++ ")") = "$raw(" ++ K2 ++ ")" ∧
    substituteContent [(K1, V)] ("$base64(" ++ K2 ++ ")") = "$base64(" ++ K2 ++ ")" := by
  have hK2d := alphanum_ne_dollar K2 h2
  have hK1 := alphanum_ne_paren K1 h1
  have hK2 := alphanum_ne_paren K2 h2
  refine ⟨?_, ?_, ?_⟩
  · obtain ⟨e1, e2, e3⟩ := other_key_patterns_absent K1 K2 [] (by simp) (by simp) hK2d hK1 hK2
      hne ("$(" ++ K2 ++ ")") rfl
    exact substituteKey_of_no_pattern K1 V _ e1 e2 e3
  · obtain ⟨e1, e2, e3⟩ := other_key_patterns_absent K1 K2 ['r', 'a', 'w'] (by decide)
      (by decide) hK2d hK1 hK2 hne ("$raw(" ++ K2 ++ ")") rfl
    exact substituteKey_of_no_pattern K1 V _ e1 e2 e3
  · obtain ⟨e1, e2, e3⟩ := other_key_patterns_absent K1 K2 ['b', 'a', 's', 'e', '6', '4']
      (by decide) (by decide) hK2d hK1 hK2 hne ("$base64(" ++ K2 ++ ")") rfl
    exact substituteKey_of_no_pattern K1 V _ e1 e2 e3

/-- Witness of claim C15: the key `application` is a proper part of the key
`applicationFqdn`. -/
theorem placeholder_needs_exact_key_witness :
    ((∀ c ∈ "application".data, c.isAlphanum = true) ∧
      (∀ c ∈ "applicationFqdn".data, c.isAlphanum = true) ∧
      "application" ≠ "applicationFqdn" ∧ Contains "applicationFqdn" "application" = true) ∧
    substituteContent [("application", .str "x")] "$(applicationFqdn)" = "$(applicationFqdn)" ∧
    substituteContent [("application", .str "x")] "$raw(applicationFqdn)"
      = "$raw(applicationFqdn)" ∧
    substituteContent [("application", .str "x")] "$base64(applicationFqdn)"
      = "$base64(applicationFqdn)" :=
  ⟨by decide,
    placeholder_needs_exact_key "application" "applicationFqdn" (.str "x")
      (by decide) (by decide) (by decide)⟩

/-- Claim C16 does not hold of the code: with the S3 section complete and the flat map
holding `artifactRepositoryS3Insecure`, the line of `workflow-config-map.env` for the
insecure flag does not carry that value: the code looks up the key
`artifactRepositoryIS3nsecure` (line 251), which the flat map does not hold, and `%v` prints
the missing value as `<nil>`. -/
theorem workflow_env_insecure_line :
    writeWorkflowEnv ⟨["artifactRepository", "artifactRepository.s3",
        "artifactRepository.s3.bucket", "artifactRepository.s3.endpoint",
        "artifactRepository.s3.insecure", "artifactRepository.s3.region"]⟩
      [("artifactRepositoryS3Bucket", .str "bucket"),
        ("artifactRepositoryS3Endpoint", .str "s3.amazonaws.com"),
        ("artifactRepositoryS3Insecure", .bool false),
        ("artifactRepositoryS3Region", .str "us-west-2")] []
      = .ok [(".onepanel/manifests/cache/vars/workflow-config-map.env",
          "artifactRepositoryBucket=bucket\nartifactRepositoryEndpoint=s3.amazonaws.com\nartifactRepositoryInsecure=<nil>\nartifactRepositoryRegion=us-west-2\n")] ∧
    ("artifactRepositoryBucket=bucket\nartifactRepositoryEndpoint=s3.amazonaws.com\nartifactRepositoryInsecure=<nil>\nartifactRepositoryRegion=us-west-2\n" : String)
      ≠ "artifactRepositoryBucket=bucket\nartifactRepositoryEndpoint=s3.amazonaws.com\nartifactRepositoryInsecure=false\nartifactRepositoryRegion=us-west-2\n" := by
  refine ⟨?_, ?_⟩
  · decide
  · decide

theorem guarded_Replace_eq (s pre key new : String) (n : Int) :
    (if Contains s key then Replace s (pre ++ key ++ ")") new n else s)
      = Replace s (pre ++ key ++ ")") new n := by
  split
  · rfl
  · rename_i hk
    have hk1 : Contains s key = false := by simpa using hk
    have hp : Contains s (pre ++ key ++ ")") = false := by
      rw [Contains_eq_false] at hk1 ⊢
      intro hin
      exact hk1 (List.IsInfix.trans ⟨pre.data, [')'], rfl⟩ hin)
    exact (Replace_of_not_Contains _ _ _ _ hp).symm

/-- Claim C17: the per-key substitution step with its three guards returns, on every
content, key and value, the same content as the step without the guards. -/
theorem guard_is_redundant (key : String) (value : FlatValue) (content : String) :
    substituteKey key value content = substituteKeyUnguarded key value content := by
  simp only [substituteKey, substituteKeyUnguarded, guarded_Replace_eq]

/-! ## Claims C18 and C19 -/

theorem metalLbLoop_mixed (nodes : List Node) (idx : Nat) (lines : List String) :
    metalLbLoop nodes idx "" lines
      = lines ++ ((nodes.enumFrom idx).filter (fun p => decide (p.2.Tag = "!!str"))).map
          (fun p => (if p.1 > 0 then "      " else "") ++ ("- " ++ p.2.Value ++ "\n")) := by
  induction nodes generalizing idx lines with
  | nil => simp [metalLbLoop]
  | cons n rest ih =>
    by_cases hn : n.Tag = "!!str"
    · simp only [metalLbLoop, hn, if_true, ih, List.enumFrom_cons, List.filter_cons, decide_True,
        List.map_cons, List.append_assoc, List.singleton_append]
    · simp only [metalLbLoop, hn, if_false, ih, List.enumFrom_cons, List.filter_cons,
        decide_False, Bool.false_eq_true]

theorem metalLbLoop_no_str (nodes : List Node) (idx : Nat) (appendStr : String)
    (lines : List String) (h : ∀ n ∈ nodes, n.Tag ≠ "!!str") :
    metalLbLoop nodes idx appendStr lines = lines := by
  induction nodes generalizing idx with
  | nil => rfl
  | cons n rest ih =>
    have hn : n.Tag ≠ "!!str" := h n (List.mem_cons_self n rest)
    simp only [metalLbLoop, hn, if_false]
    exact ih _ (fun m hm => h m (List.mem_cons_of_mem n hm))

/-- Claim C18: on every node list the scalar-list formatter emits, in order, one line
`- value` for each string-tagged node and nothing for the other nodes; the line is
behind six spaces exactly when the index of the node in the list is greater than 0. So a
string-tagged node behind a first node of another tag gives an indented first line, and
the output is empty when no node is string-tagged. -/
theorem generateMetalLbAddresses_mixed :
    (∀ nodePoolData : List Node, generateMetalLbAddresses nodePoolData
      = String.join (((List.enum nodePoolData).filter (fun p => decide (p.2.Tag = "!!str"))).map
          (fun p => (if p.1 > 0 then "      " else "") ++ ("- " ++ p.2.Value ++ "\n")))) ∧
    (∀ first second : Node, first.Tag ≠ "!!str" → second.Tag = "!!str" →
      generateMetalLbAddresses [first, second] = "      " ++ ("- " ++ second.Value ++ "\n")) ∧
    (∀ nodePoolData : List Node, (∀ n ∈ nodePoolData, n.Tag ≠ "!!str") →
      generateMetalLbAddresses nodePoolData = "") := by
  have hall : ∀ nodePoolData : List Node, generateMetalLbAddresses nodePoolData
      = String.join (((List.enum nodePoolData).filter (fun p => decide (p.2.Tag = "!!str"))).map
          (fun p => (if p.1 > 0 then "      " else "") ++ ("- " ++ p.2.Value ++ "\n"))) := by
    intro nodePoolData
    rw [generateMetalLbAddresses, metalLbLoop_mixed, Join_empty_sep, List.singleton_append,
      String_join_cons, String.empty_append]
    rfl
  refine ⟨hall, fun first second h1 h2 => ?_, fun nodePoolData hnone => ?_⟩
  · rw [hall]
    simp [List.enum, List.filter_cons, h1, h2, String.join]
  · rw [generateMetalLbAddresses, metalLbLoop_no_str _ _ _ _ hnone]
    rfl

/-- Witness of claim C18: an integer node in front of a string node, and a list without
string nodes. -/
theorem generateMetalLbAddresses_mixed_witness :
    ((Node.mk "!!int" "7" []).Tag ≠ "!!str" ∧ (Node.mk "!!str" "10.0.0.2" []).Tag = "!!str") ∧
    generateMetalLbAddresses [.mk "!!int" "7" [], .mk "!!str" "10.0.0.2" []]
      = "      - 10.0.0.2\n" ∧
    generateMetalLbAddresses [.mk "!!int" "7" [], .mk "!!bool" "true" []] = "" :=
  ⟨by decide,
    (generateMetalLbAddresses_mixed.2.1 (.mk "!!int" "7" []) (.mk "!!str" "10.0.0.2" [])
      (by decide) (by decide)).trans (by decide),
    generateMetalLbAddresses_mixed.2.2 [.mk "!!int" "7" [], .mk "!!bool" "true" []]
      (by simp [Node.Tag])⟩

theorem splitChars_length (c : Char) (s cur : List Char) :
    (splitChars [c] s 0 cur).length = s.count c + 1 := by
  induction s generalizing cur with
  | nil => simp [splitChars]
  | cons x xs ih =>
    by_cases hx : x = c
    · subst hx
      rw [splitChars_sep, List.length_cons, ih, List.count_cons_self]
    · have hp : ([c].isPrefixOf (x :: xs)) = false := by
        simp [List.isPrefixOf, Ne.symm hx]
      rw [splitChars, if_neg (by rw [hp]; exact Bool.false_ne_true), ih,
        List.count_cons_of_ne (Ne.symm hx)]

theorem Split_eq_length (line : String) :
    (Split line "=").length = line.data.count '=' + 1 := by
  have hs : ("=" : String).data = ['='] := rfl
  simp only [Split, hs, List.cons_ne_nil, if_false, List.length_map]
  exact splitChars_length _ _ _

/-- Claim C19: a line whose number of `=` characters is not one leaves the flat map as it
is; a line with exactly one `=` is a key, the `=` and a value; and such a line sets the key
to the value as a string and changes no other key. -/
theorem env_line_parsing (flatMap : FlatMap) :
    (∀ line : String, line.data.count '=' ≠ 1 → mergeEnvLine flatMap line = flatMap) ∧
    (∀ line : String, line.data.count '=' = 1 →
      ∃ K V : String, line = K ++ "=" ++ V ∧ '=' ∉ K.data ∧ '=' ∉ V.data) ∧
    (∀ K V : String, '=' ∉ K.data → '=' ∉ V.data →
      mergeEnvLine flatMap (K ++ "=" ++ V) = flatMap.set K (.str V) ∧
      (mergeEnvLine flatMap (K ++ "=" ++ V)).get K = some (.str V) ∧
      ∀ other : String, other ≠ K →
        (mergeEnvLine flatMap (K ++ "=" ++ V)).get other = flatMap.get other) := by
  refine ⟨fun line hcount => ?_, fun line hcount => ?_, fun K V hK hV => ?_⟩
  · unfold mergeEnvLine
    split
    · rename_i key value heq
      have hlen := Split_eq_length line
      rw [heq] at hlen
      simp only [List.length_cons, List.length_nil] at hlen
      omega
    · rfl
  · have hs : ("=" : String).data = ['='] := rfl
    have hlen := splitChars_length '=' line.data []
    rw [hcount] at hlen
    match hsp : splitChars ['='] line.data 0 [] with
    | [] => rw [hsp] at hlen; simp at hlen
    | [x] => rw [hsp] at hlen; simp at hlen
    | x :: y :: z :: rest => rw [hsp] at hlen; simp at hlen
    | [a, b] =>
      obtain ⟨h1, h2, h3⟩ := splitChars_two _ _ _ _ _ (by simp) hsp
      exact ⟨String.mk a, String.mk b, String.ext (by simpa using h1), h2, h3⟩
  · have hm : mergeEnvLine flatMap (K ++ "=" ++ V) = flatMap.set K (.str V) := by
      simp only [mergeEnvLine, Split_key_value K V hK hV]
    rw [hm]
    exact ⟨rfl, FlatMap.get_set_self _ _ _,
      fun other hne => FlatMap.get_set_ne _ _ _ _ (Ne.symm hne)⟩

/-- Witness of claim C19: a line without `=`, a line whose value holds a further `=`, the
empty line, and a line with one `=`. -/
theorem env_line_parsing_witness :
    ("comment".data.count '=' ≠ 1 ∧ "token=YQ==".data.count '=' ≠ 1 ∧ "".data.count '=' ≠ 1 ∧
      '=' ∉ "loggingImage".data ∧ '=' ∉ "fluentd".data) ∧
    mergeEnvLine [("token", .str "t")] "comment" = [("token", .str "t")] ∧
    mergeEnvLine [("token", .str "t")] "token=YQ==" = [("token", .str "t")] ∧
    mergeEnvLine [("token", .str "t")] "" = [("token", .str "t")] ∧
    mergeEnvLine [("token", .str "t")] ("loggingImage" ++ "=" ++ "fluentd")
      = FlatMap.set [("token", .str "t")] "loggingImage" (.str "fluentd") :=
  ⟨by decide,
    (env_line_parsing [("token", .str "t")]).1 "comment" (by decide),
    (env_line_parsing [("token", .str "t")]).1 "token=YQ==" (by decide),
    (env_line_parsing [("token", .str "t")]).1 "" (by decide),
    ((env_line_parsing [("token", .str "t")]).2.2 "loggingImage" "fluentd"
      (by decide) (by decide)).1⟩

end Cli
